import Mathlib

/-!
Verification of the persona lifecycle and recommendation core of the
jp-mcp-server repository, against a shallow embedding of its TypeScript
source (src/servers/PersonaServer.ts, src/utils/personaUtils.ts,
src/utils/personaStats.ts, src/utils/errors.ts, src/config/index.ts).

JavaScript `Map` objects are modelled as insertion-ordered association
lists with unique keys; `Map.set` replaces in place or appends, `Map.delete`
removes, `Map.keys().next()` is the head key.  Timestamps (`Date.now()`,
`Date` values) are modelled as natural-number milliseconds.  JS number
arithmetic on durations and scores is modelled with `Rat` where real
division occurs.
-/

set_option maxHeartbeats 1000000

deriving instance DecidableEq for Except

/-! ## Insertion-ordered maps (the JS `Map` model) -/

/-- Keys of an association list, in insertion order. -/
def keysOf {α : Type} (m : List (String × α)) : List String := m.map Prod.fst

/-- JS `Map.has`. -/
def mapHas {α : Type} (m : List (String × α)) (k : String) : Bool :=
  m.any (fun e => e.1 == k)

/-- JS `Map.get` (`undefined` becomes `none`). -/
def mapGet? {α : Type} (m : List (String × α)) (k : String) : Option α :=
  (m.find? (fun e => e.1 == k)).map Prod.snd

/-- JS `Map.set`: replace the value in place when the key is present,
else append a new entry at the end (insertion order). -/
def mapSet {α : Type} (m : List (String × α)) (k : String) (v : α) :
    List (String × α) :=
  if mapHas m k then m.map (fun e => if e.1 == k then (k, v) else e)
  else m ++ [(k, v)]

/-- JS `Map.delete`. -/
def mapDelete {α : Type} (m : List (String × α)) (k : String) :
    List (String × α) :=
  m.filter (fun e => !(e.1 == k))

/-- JS `Map.keys().next()`: the first key in insertion order, if any. -/
def firstKey? {α : Type} (m : List (String × α)) : Option String :=
  m.head?.map Prod.fst

theorem mapHas_iff {α : Type} (m : List (String × α)) (k : String) :
    mapHas m k = true ↔ k ∈ keysOf m := by
  simp [mapHas, keysOf, List.any_eq_true, List.mem_map]

theorem mapGet?_eq_none {α : Type} (m : List (String × α)) (k : String)
    (h : mapHas m k = false) : mapGet? m k = none := by
  simp [mapGet?, List.find?_eq_none]
  intro e he
  simp [mapHas, List.any_eq_true] at h
  exact h e he

theorem mapGet?_isSome {α : Type} (m : List (String × α)) (k : String)
    (h : mapHas m k = true) : ∃ v, mapGet? m k = some v := by
  induction m with
  | nil => simp [mapHas] at h
  | cons e rest ih =>
    by_cases hk : e.1 = k
    · exact ⟨e.2, by simp [mapGet?, List.find?, hk]⟩
    · have h' : mapHas rest k = true := by
        simp [mapHas, List.any_eq_true] at h ⊢
        rcases h with h | h
        · exact absurd h hk
        · exact h
      obtain ⟨v, hv⟩ := ih h'
      have hbeq : (e.1 == k) = false := by simp [hk]
      refine ⟨v, ?_⟩
      simpa [mapGet?, List.find?, hbeq] using hv

theorem mem_keysOf_mapDelete {α : Type} (m : List (String × α)) (k k' : String) :
    k' ∈ keysOf (mapDelete m k) ↔ k' ∈ keysOf m ∧ k' ≠ k := by
  simp [keysOf, mapDelete, List.mem_map, List.mem_filter]

theorem mem_mapSet {α : Type} (m : List (String × α)) (k : String) (v : α)
    (e : String × α) (h : e ∈ mapSet m k v) : e = (k, v) ∨ e ∈ m := by
  unfold mapSet at h
  split at h
  · obtain ⟨e', he', hee⟩ := List.mem_map.mp h
    by_cases hk : e'.1 = k
    · simp [hk] at hee
      exact Or.inl hee.symm
    · simp [hk] at hee
      exact Or.inr (hee ▸ he')
  · rcases List.mem_append.mp h with h' | h'
    · exact Or.inr h'
    · exact Or.inl (by simpa using h')

theorem keysOf_mapSet_of_has {α : Type} (m : List (String × α)) (k : String)
    (v : α) (h : mapHas m k = true) : keysOf (mapSet m k v) = keysOf m := by
  unfold mapSet
  rw [if_pos h]
  unfold keysOf
  rw [List.map_map]
  apply List.map_congr_left
  intro e _
  by_cases hk : e.1 = k
  · simp [Function.comp, hk]
  · simp [Function.comp, hk]

theorem keysOf_mapSet_of_not_has {α : Type} (m : List (String × α)) (k : String)
    (v : α) (h : mapHas m k = false) :
    keysOf (mapSet m k v) = keysOf m ++ [k] := by
  unfold mapSet
  rw [if_neg (by simp [h])]
  simp [keysOf]

theorem mapSet_eq_append {α : Type} (m : List (String × α)) (k : String) (v : α)
    (h : mapHas m k = false) : mapSet m k v = m ++ [(k, v)] := by
  unfold mapSet
  rw [if_neg (by simp [h])]

theorem nodup_keysOf_mapSet {α : Type} (m : List (String × α)) (k : String)
    (v : α) (h : (keysOf m).Nodup) : (keysOf (mapSet m k v)).Nodup := by
  by_cases hk : mapHas m k = true
  · rw [keysOf_mapSet_of_has m k v hk]; exact h
  · rw [keysOf_mapSet_of_not_has m k v (by simpa using hk)]
    simp [List.nodup_append, h]
    rw [mapHas_iff] at hk
    simpa using hk

theorem eq_of_mem_pairwise {α : Type} : ∀ (m : List (String × α)),
    m.Pairwise (fun a b => a.1 ≠ b.1) → ∀ k (v w : α),
    (k, v) ∈ m → (k, w) ∈ m → v = w
  | [], _, k, v, w, hv, _ => by simp at hv
  | e :: rest, hp, k, v, w, hv, hw => by
    rcases List.mem_cons.mp hv with rfl | hv'
    · rcases List.mem_cons.mp hw with he | hw'
      · exact ((Prod.ext_iff.mp he).2).symm
      · exact absurd rfl ((List.pairwise_cons.mp hp).1 (k, w) hw')
    · rcases List.mem_cons.mp hw with rfl | hw'
      · exact absurd rfl ((List.pairwise_cons.mp hp).1 (k, v) hv')
      · exact eq_of_mem_pairwise rest (List.pairwise_cons.mp hp).2 k v w hv' hw'

theorem eq_of_mem_of_nodup_keys {α : Type} (m : List (String × α))
    (h : (keysOf m).Nodup) (k : String) (v w : α)
    (hv : (k, v) ∈ m) (hw : (k, w) ∈ m) : v = w := by
  apply eq_of_mem_pairwise m _ k v w hv hw
  have := h
  unfold keysOf at this
  rw [List.Nodup, List.pairwise_map] at this
  exact this

/-! ## String utilities (JS string semantics) -/

/-- JS `String.prototype.toLowerCase`, character by character. -/
def toLowerStr (s : String) : String := (s.data.map Char.toLower).asString

/-- JS `String.prototype.trim`: drop leading and trailing whitespace. -/
def trimStr (s : String) : String :=
  (((s.data.dropWhile Char.isWhitespace).reverse.dropWhile
      Char.isWhitespace).reverse).asString

/-- JS `hay.includes(needle)`: `needle` occurs contiguously in `hay`
(the empty string occurs in every string). -/
def includesStr (hay needle : String) : Bool :=
  (List.range (hay.data.length + 1)).any
    (fun i => needle.data.isPrefixOf (hay.data.drop i))

/-- JS `s.split(/\s+/)` on a list of characters: pieces between maximal
whitespace runs, keeping an empty piece at either boundary (and `[""]`
for the empty string), exactly as the JS regex split does.  `acc` holds
the current piece reversed; `inWs` records that the previous character
belonged to a whitespace run whose piece has already been emitted. -/
def jsSplitWsChars : List Char → List Char → Bool → List (List Char)
  | [], acc, _ => [acc.reverse]
  | c :: cs, acc, inWs =>
    if c.isWhitespace then
      if inWs then jsSplitWsChars cs acc true
      else acc.reverse :: jsSplitWsChars cs [] true
    else jsSplitWsChars cs (c :: acc) false

/-- JS `s.split(/\s+/)`. -/
def jsSplitWs (s : String) : List String :=
  (jsSplitWsChars s.data [] false).map List.asString

/-- Replace the first occurrence of `pat` in a character list
(JS `String.prototype.replace` with a non-global literal pattern). -/
def replaceFirstChars (pat repl : List Char) : List Char → List Char
  | [] => []
  | c :: cs =>
    if pat.isPrefixOf (c :: cs) then repl ++ (c :: cs).drop pat.length
    else c :: replaceFirstChars pat repl cs

/-- JS `s.replace(/pat/, repl)` for a literal pattern: first occurrence only. -/
def replaceFirst (s pat repl : String) : String :=
  (replaceFirstChars pat.data repl.data s.data).asString

/-- Fuelled helper for decimal rendering (structural recursion on the
fuel, so that concrete values reduce inside the kernel). -/
def natDecCharsAux : Nat → Nat → List Char
  | 0, _ => []
  | fuel + 1, n =>
    if n < 10 then [Char.ofNat (48 + n)]
    else natDecCharsAux fuel (n / 10) ++ [Char.ofNat (48 + n % 10)]

/-- Decimal digit characters of a natural number, most significant first.
JS renders integer Numbers (such as `Date.now()`) this way in template
literals. -/
def natDecChars (n : Nat) : List Char := natDecCharsAux (n + 1) n

/-- Decimal rendering of a natural number (JS `${n}` for an integer). -/
def natToDecStr (n : Nat) : String := (natDecChars n).asString

theorem natDecCharsAux_fuel : ∀ (fuel fuel' n : Nat), n < fuel → n < fuel' →
    natDecCharsAux fuel n = natDecCharsAux fuel' n
  | fuel + 1, fuel' + 1, n, hf, hf' => by
    unfold natDecCharsAux
    by_cases h : n < 10
    · rw [if_pos h, if_pos h]
    · rw [if_neg h, if_neg h]
      have hlt : n / 10 < n := Nat.div_lt_self (by omega) (by omega)
      rw [natDecCharsAux_fuel fuel fuel' (n / 10) (by omega) (by omega)]

/-- The defining recursion of `natDecChars`. -/
theorem natDecChars_eq (n : Nat) : natDecChars n =
    if n < 10 then [Char.ofNat (48 + n)]
    else natDecChars (n / 10) ++ [Char.ofNat (48 + n % 10)] := by
  by_cases h : n < 10
  · rw [if_pos h]
    show natDecCharsAux (n + 1) n = _
    unfold natDecCharsAux
    rw [if_pos h]
  · rw [if_neg h]
    show natDecCharsAux (n + 1) n = natDecCharsAux (n / 10 + 1) (n / 10) ++ _
    conv_lhs => unfold natDecCharsAux
    rw [if_neg h]
    have hlt : n / 10 < n := Nat.div_lt_self (by omega) (by omega)
    rw [natDecCharsAux_fuel n (n / 10 + 1) (n / 10) (by omega) (by omega)]

/-! ## The error model (src/utils/errors.ts and the MCP SDK error codes) -/

/-- Protocol error codes used by the repository (from the MCP SDK). -/
inductive ErrorCode where
  | invalidRequest
  | methodNotFound
  | internalError
deriving Repr, DecidableEq

/-- An MCP protocol error: a code plus a human-readable message. -/
structure McpError where
  code : ErrorCode
  message : String
deriving Repr, DecidableEq

/-- McpErrorHandler.notFound. -/
def McpErrorHandler.notFound (resource id : String) : McpError :=
  ⟨ErrorCode.invalidRequest, resource ++ " not found: " ++ id⟩

/-- McpErrorHandler.alreadyExists. -/
def McpErrorHandler.alreadyExists (resource id : String) : McpError :=
  ⟨ErrorCode.invalidRequest,
    resource ++ " with ID \"" ++ id ++ "\" already exists"⟩

/-- McpErrorHandler.invalidRequest. -/
def McpErrorHandler.invalidRequest (message : String) : McpError :=
  ⟨ErrorCode.invalidRequest, message⟩

/-- McpErrorHandler.internalError. -/
def McpErrorHandler.internalError (message : String) : McpError :=
  ⟨ErrorCode.internalError, message⟩

/-- McpErrorHandler.methodNotFound. -/
def McpErrorHandler.methodNotFound (method : String) : McpError :=
  ⟨ErrorCode.methodNotFound, "Unknown method: " ++ method⟩

/-! ## The data model (src/types/index.ts) -/

/-- A persona record. -/
structure Persona where
  id : String
  name : String
  description : String
  systemPrompt : String
  traits : List String
  communicationStyle : String
  expertise : List String
deriving Repr, DecidableEq

/-- A persona blend record.  `blendMode` is kept as the raw string the
caller passed (the code casts it unvalidated). -/
structure PersonaBlend where
  id : String
  sourcePersonaIds : List String
  task : String
  blendMode : String
  systemPrompt : String
  expiresAt : Nat
  expiredAt : Option Nat
deriving Repr, DecidableEq

/-- CONFIG.PERSONA.DEFAULT_ID (src/config/index.ts). -/
def DEFAULT_ID : String := "expert-developer"

/-- One hour in milliseconds (the blend TTL). -/
def HOUR_MS : Nat := 60 * 60 * 1000

/-- Twenty-four hours in milliseconds (the expired-blend grace window). -/
def DAY_MS : Nat := 24 * 60 * 60 * 1000

/-- The in-memory state of the PersonaServer relevant to the persona
lifecycle: the persona map, the two pointers, and the two blend indexes. -/
structure ServerState where
  personas : List (String × Persona)
  activePersonaId : Option String
  defaultPersonaId : String
  temporaryPersonas : List (String × PersonaBlend)
  expiredPersonas : List (String × PersonaBlend)
deriving Repr, DecidableEq

/-! ## Persona store load and delete (PersonaServer.loadPersonas,
PersonaServer.handleDeletePersona) -/

/-- JS falsiness of the stored active pointer
(`!this.storage.activePersonaId`). -/
def falsyOpt : Option String → Bool
  | none => true
  | some s => s == ""

/-- Build the persona map from the stored persona array, in order
(`for (const persona of this.storage.personas) this.personas.set(...)`). -/
def buildPersonaMap (ps : List Persona) : List (String × Persona) :=
  ps.foldl (fun acc p => mapSet acc p.id p) []

/-- The default-pointer repair block of PersonaServer.loadPersonas: when the
stored default is falsy or not a key of the map, fall back to the configured
default identifier if present, else to the first persona, else retain the
configured identifier as a placeholder. -/
def repairDefault (m : List (String × Persona)) (storedDefault : String) :
    String :=
  if storedDefault = "" ∨ mapHas m storedDefault = false then
    if mapHas m DEFAULT_ID = true then DEFAULT_ID
    else
      match firstKey? m with
      | some k => k
      | none => DEFAULT_ID
  else storedDefault

/-- The active-pointer repair block of PersonaServer.loadPersonas: when the
stored active pointer is falsy or not a key of the map, fall back to the
(already repaired) default if it resolves, else to the first persona, else
to null. -/
def repairActive (m : List (String × Persona)) (default1 : String)
    (storedActive : Option String) : Option String :=
  let activeInvalid : Bool :=
    match storedActive with
    | none => true
    | some a => a == "" || !(mapHas m a)
  if activeInvalid then
    if mapHas m default1 = true then some default1
    else
      match firstKey? m with
      | some k => some k
      | none => none
  else storedActive

/-- PersonaServer.loadPersonas: build the map, repair the default pointer,
then repair the active pointer against the repaired default. -/
def loadPersonas (storedPersonas : List Persona) (storedActive : Option String)
    (storedDefault : String) : ServerState :=
  let m := buildPersonaMap storedPersonas
  let default1 := repairDefault m storedDefault
  { personas := m,
    activePersonaId := repairActive m default1 storedActive,
    defaultPersonaId := default1,
    temporaryPersonas := [], expiredPersonas := [] }

/-- PersonaServer.handleDeletePersona (state effects): remove the persona;
if it was the default, reassign the default along the fallback chain
(configured default if present, else first remaining, else leave it); if
it was the active persona, set the active pointer unconditionally to the
configured default identifier. -/
def deletePersona (s : ServerState) (persona_id : String) :
    Except McpError (ServerState × Persona) :=
  match mapGet? s.personas persona_id with
  | none => .error (McpErrorHandler.notFound "Persona" persona_id)
  | some persona =>
    let m := mapDelete s.personas persona_id
    let newDefault : Option String :=
      if mapHas m DEFAULT_ID = true then some DEFAULT_ID else firstKey? m
    let default1 :=
      if s.defaultPersonaId = persona_id then
        (match newDefault with
         | some d => d
         | none => s.defaultPersonaId)
      else s.defaultPersonaId
    let active1 :=
      if s.activePersonaId = some persona_id then some DEFAULT_ID
      else s.activePersonaId
    .ok ({ personas := m, activePersonaId := active1,
           defaultPersonaId := default1,
           temporaryPersonas := s.temporaryPersonas,
           expiredPersonas := s.expiredPersonas }, persona)

theorem firstKey?_mem {α : Type} (m : List (String × α)) (k : String)
    (h : firstKey? m = some k) : k ∈ keysOf m := by
  cases m with
  | nil => simp [firstKey?] at h
  | cons e rest =>
    simp [firstKey?] at h
    simp [keysOf, ← h]

theorem firstKey?_isSome {α : Type} (m : List (String × α)) (h : m ≠ []) :
    ∃ k, firstKey? m = some k := by
  cases m with
  | nil => exact absurd rfl h
  | cons e rest => exact ⟨e.1, by simp [firstKey?]⟩

theorem repairDefault_mem (m : List (String × Persona)) (sd : String)
    (hne : m ≠ []) : mapHas m (repairDefault m sd) = true := by
  unfold repairDefault
  split
  · split
    · assumption
    · obtain ⟨k, hk⟩ := firstKey?_isSome m hne
      rw [hk]
      exact (mapHas_iff m k).mpr (firstKey?_mem m k hk)
  · rename_i h
    push_neg at h
    exact Bool.ne_false_iff.mp h.2

theorem repairDefault_of_invalid_config (m : List (String × Persona))
    (sd : String) (hinv : sd = "" ∨ mapHas m sd = false)
    (hc : mapHas m DEFAULT_ID = true) : repairDefault m sd = DEFAULT_ID := by
  unfold repairDefault
  rw [if_pos hinv, if_pos hc]

theorem repairDefault_of_invalid_first (m : List (String × Persona))
    (sd : String) (hinv : sd = "" ∨ mapHas m sd = false)
    (hc : mapHas m DEFAULT_ID = false) (k : String)
    (hk : firstKey? m = some k) : repairDefault m sd = k := by
  unfold repairDefault
  rw [if_pos hinv, if_neg (by simp [hc]), hk]

theorem repairActive_mem (m : List (String × Persona)) (d : String)
    (sa : Option String) (hd : mapHas m d = true) :
    ∃ a, repairActive m d sa = some a ∧ mapHas m a = true := by
  cases sa with
  | none => exact ⟨d, by simp [repairActive, hd], hd⟩
  | some a =>
    by_cases ha : (a == "" || !(mapHas m a)) = true
    · exact ⟨d, by simp only [repairActive]; rw [if_pos ha, if_pos hd], hd⟩
    · have ha' : (a == "" || !(mapHas m a)) = false := by simpa using ha
      refine ⟨a, by simp only [repairActive]; rw [if_neg (by simp [ha'])], ?_⟩
      simp only [Bool.or_eq_false_iff, Bool.not_eq_false'] at ha'
      exact ha'.2

theorem repairActive_of_invalid (m : List (String × Persona)) (d : String)
    (sa : Option String) (hd : mapHas m d = true)
    (hinv : falsyOpt sa = true ∨ ∃ a, sa = some a ∧ mapHas m a = false) :
    repairActive m d sa = some d := by
  cases sa with
  | none => simp [repairActive, hd]
  | some a =>
    have hcond : (a == "" || !(mapHas m a)) = true := by
      rcases hinv with h | ⟨a', ha', hm⟩
      · simp [falsyOpt] at h
        simp [h]
      · obtain rfl : a' = a := by injection ha'.symm
        simp [hm]
    simp only [repairActive]
    rw [if_pos hcond, if_pos hd]

/-- A minimal persona record used in concrete test stores. -/
def samplePersona (pid nm : String) : Persona :=
  ⟨pid, nm, "", "", [], "", []⟩

/-- C2: after `loadPersonas`, if the persona map is non-empty, both
`defaultPersonaId` and `activePersonaId` are keys of the map; an absent or
non-resolving default is repaired to the configured default identifier when
that identifier is in the map, else to the first persona in iteration
order; an absent or non-resolving active pointer is repaired to the
(repaired) default. -/
theorem loadPersonas_invariant (sp : List Persona) (sa : Option String)
    (sd : String) (hne : buildPersonaMap sp ≠ []) :
    mapHas (loadPersonas sp sa sd).personas
      (loadPersonas sp sa sd).defaultPersonaId = true ∧
    (∃ a, (loadPersonas sp sa sd).activePersonaId = some a ∧
       mapHas (loadPersonas sp sa sd).personas a = true) ∧
    ((sd = "" ∨ mapHas (buildPersonaMap sp) sd = false) →
       mapHas (buildPersonaMap sp) DEFAULT_ID = true →
       (loadPersonas sp sa sd).defaultPersonaId = DEFAULT_ID) ∧
    ((sd = "" ∨ mapHas (buildPersonaMap sp) sd = false) →
       mapHas (buildPersonaMap sp) DEFAULT_ID = false →
       ∀ k, firstKey? (buildPersonaMap sp) = some k →
       (loadPersonas sp sa sd).defaultPersonaId = k) ∧
    ((falsyOpt sa = true ∨
        ∃ a, sa = some a ∧ mapHas (buildPersonaMap sp) a = false) →
       (loadPersonas sp sa sd).activePersonaId =
         some (loadPersonas sp sa sd).defaultPersonaId) := by
  refine ⟨?_, ?_, ?_, ?_, ?_⟩
  · exact repairDefault_mem (buildPersonaMap sp) sd hne
  · exact repairActive_mem (buildPersonaMap sp) (repairDefault (buildPersonaMap sp) sd)
      sa (repairDefault_mem (buildPersonaMap sp) sd hne)
  · intro hinv hc
    exact repairDefault_of_invalid_config (buildPersonaMap sp) sd hinv hc
  · intro hinv hc k hk
    exact repairDefault_of_invalid_first (buildPersonaMap sp) sd hinv hc k hk
  · intro hinv
    exact repairActive_of_invalid (buildPersonaMap sp)
      (repairDefault (buildPersonaMap sp) sd) sa
      (repairDefault_mem (buildPersonaMap sp) sd hne) hinv

/-- Witness: loadPersonas_invariant applied to a concrete one-persona store
with no stored pointers. -/
theorem loadPersonas_invariant_witness :
    buildPersonaMap [samplePersona "p1" "P1"] ≠ [] ∧
    mapHas (loadPersonas [samplePersona "p1" "P1"] none "").personas
      (loadPersonas [samplePersona "p1" "P1"] none "").defaultPersonaId = true ∧
    (∃ a, (loadPersonas [samplePersona "p1" "P1"] none "").activePersonaId = some a ∧
       mapHas (loadPersonas [samplePersona "p1" "P1"] none "").personas a = true) :=
  ⟨by decide,
   (loadPersonas_invariant [samplePersona "p1" "P1"] none "" (by decide)).1,
   (loadPersonas_invariant [samplePersona "p1" "P1"] none "" (by decide)).2.1⟩

/-- The two-persona store of spec Scenario A: p1 is both default and
active, and neither id is the configured default identifier. -/
def scenarioStoreA : ServerState :=
  { personas := [("p1", samplePersona "p1" "P1"),
                 ("p2", samplePersona "p2" "P2")],
    activePersonaId := some "p1", defaultPersonaId := "p1",
    temporaryPersonas := [], expiredPersonas := [] }

/-- C1: on delete of the active persona the active pointer is set
unconditionally to the configured default identifier, even when that
identifier is not a key of the remaining map; on delete of the default
persona the default is reassigned to the configured identifier when it is
present in the remaining map, else to the first remaining persona; in the
scenario store {p1 (default, active), p2}, deleting p1 leaves
defaultPersonaId = p2 and a dangling activePersonaId = configured
identifier. -/
theorem deletePersona_pointers :
    (∀ (s : ServerState) (pid : String) (st' : ServerState) (p : Persona),
       deletePersona s pid = .ok (st', p) → s.activePersonaId = some pid →
       st'.activePersonaId = some DEFAULT_ID) ∧
    (∀ (s : ServerState) (pid : String) (st' : ServerState) (p : Persona),
       deletePersona s pid = .ok (st', p) → s.defaultPersonaId = pid →
       mapHas (mapDelete s.personas pid) DEFAULT_ID = true →
       st'.defaultPersonaId = DEFAULT_ID) ∧
    (∀ (s : ServerState) (pid : String) (st' : ServerState) (p : Persona),
       deletePersona s pid = .ok (st', p) → s.defaultPersonaId = pid →
       mapHas (mapDelete s.personas pid) DEFAULT_ID = false →
       ∀ k, firstKey? (mapDelete s.personas pid) = some k →
       st'.defaultPersonaId = k) ∧
    (deletePersona scenarioStoreA "p1" =
      .ok ({ personas := [("p2", samplePersona "p2" "P2")],
             activePersonaId := some DEFAULT_ID, defaultPersonaId := "p2",
             temporaryPersonas := [], expiredPersonas := [] },
           samplePersona "p1" "P1") ∧
     mapHas [("p2", samplePersona "p2" "P2")] DEFAULT_ID = false) := by
  refine ⟨?_, ?_, ?_, by decide⟩
  · intro s pid st' p h hact
    unfold deletePersona at h
    cases hg : mapGet? s.personas pid with
    | none => rw [hg] at h; exact absurd h (by simp)
    | some q =>
      rw [hg] at h
      simp only [Except.ok.injEq, Prod.mk.injEq] at h
      rw [← h.1]
      simp [hact]
  · intro s pid st' p h hdef hc
    unfold deletePersona at h
    cases hg : mapGet? s.personas pid with
    | none => rw [hg] at h; exact absurd h (by simp)
    | some q =>
      rw [hg] at h
      simp only [Except.ok.injEq, Prod.mk.injEq] at h
      rw [← h.1]
      simp [hdef, hc]
  · intro s pid st' p h hdef hc k hk
    unfold deletePersona at h
    cases hg : mapGet? s.personas pid with
    | none => rw [hg] at h; exact absurd h (by simp)
    | some q =>
      rw [hg] at h
      simp only [Except.ok.injEq, Prod.mk.injEq] at h
      rw [← h.1]
      simp [hdef, hc, hk]

/-- Witness: deletePersona_pointers applied to the Scenario A store. -/
theorem deletePersona_pointers_witness :
    ∃ st' p, deletePersona scenarioStoreA "p1" = .ok (st', p) ∧
      st'.activePersonaId = some DEFAULT_ID := by
  obtain ⟨h1, _, _, h4, _⟩ := deletePersona_pointers
  exact ⟨_, _, h4, h1 scenarioStoreA "p1" _ _ h4 (by decide)⟩

/-- C10: the NotFound, AlreadyExists and InvalidRequest constructors of
McpErrorHandler all carry the protocol code ErrorCode.invalidRequest, so
the three client-caused error categories share one error code and are
distinguishable only by message text; a NotFound actually raised by the
delete operation carries that code. -/
theorem errorHandler_code_collapse :
    (∀ r i, (McpErrorHandler.notFound r i).code = ErrorCode.invalidRequest) ∧
    (∀ r i, (McpErrorHandler.alreadyExists r i).code = ErrorCode.invalidRequest) ∧
    (∀ m, (McpErrorHandler.invalidRequest m).code = ErrorCode.invalidRequest) ∧
    (∀ r i m, (McpErrorHandler.notFound r i).code =
         (McpErrorHandler.invalidRequest m).code ∧
       (McpErrorHandler.alreadyExists r i).code =
         (McpErrorHandler.invalidRequest m).code ∧
       (McpErrorHandler.notFound r i).code =
         (McpErrorHandler.alreadyExists r i).code) ∧
    (∀ m m', (McpErrorHandler.internalError m).code ≠
       (McpErrorHandler.invalidRequest m').code) ∧
    (∀ (s : ServerState) (pid : String), mapHas s.personas pid = false →
       deletePersona s pid = .error (McpErrorHandler.notFound "Persona" pid)) := by
  refine ⟨?_, ?_, ?_, ?_, ?_, ?_⟩
  · exact fun _ _ => rfl
  · exact fun _ _ => rfl
  · exact fun _ => rfl
  · exact fun _ _ _ => ⟨rfl, rfl, rfl⟩
  · exact fun _ _ h => nomatch h
  · intro s pid h
    unfold deletePersona
    rw [mapGet?_eq_none s.personas pid h]

/-- Witness: errorHandler_code_collapse applied to an empty store. -/
theorem errorHandler_code_collapse_witness :
    mapHas (ServerState.personas ⟨[], none, "", [], []⟩) "ghost" = false ∧
    deletePersona ⟨[], none, "", [], []⟩ "ghost" =
      .error (McpErrorHandler.notFound "Persona" "ghost") :=
  ⟨by decide, errorHandler_code_collapse.2.2.2.2.2 ⟨[], none, "", [], []⟩ "ghost"
    (by decide)⟩

/-! ## The relevance scorer (PersonaServer.handleSuggestPersona) -/

/-- The communication-style keyword table of handleSuggestPersona, in
object-literal order. -/
def styleKeywords : List (String × List String) :=
  [("technical", ["code", "debug", "implement", "optimize", "refactor", "api", "database"]),
   ("creative", ["design", "create", "innovate", "brainstorm", "idea", "concept"]),
   ("teaching", ["explain", "learn", "understand", "guide", "help", "tutorial"]),
   ("formal", ["document", "report", "present", "professional", "business"])]

/-- The bidirectional substring test used throughout handleSuggestPersona
(`aLower.includes(word) || word.includes(aLower)`). -/
def substrRel (a w : String) : Bool := includesStr a w || includesStr w a

/-- The additive relevance score of one persona against the task tokens:
+10 per matching expertise entry, +5 flat for any description-word match,
+3 per firing communication-style category, +2 per matching trait. -/
def scorePersona (taskWords : List String) (p : Persona) : Nat :=
  let s1 := (p.expertise.filter
    (fun e => taskWords.any (fun w => substrRel (toLowerStr e) w))).length * 10
  let descWords := jsSplitWs (toLowerStr p.description)
  let s2 := if (taskWords.filter
    (fun w => descWords.any (fun d => substrRel d w))).length > 0 then 5 else 0
  let s3 := (styleKeywords.filter (fun sk =>
      includesStr (toLowerStr p.communicationStyle) sk.1 &&
      (taskWords.filter (fun w => sk.2.contains w)).length > 0)).length * 3
  let s4 := (p.traits.filter
    (fun t => taskWords.any (fun w => substrRel (toLowerStr t) w))).length * 2
  s1 + s2 + s3 + s4

/-- A suggestion row before normalization: persona id, name, raw score. -/
structure RawSuggestion where
  personaId : String
  name : String
  score : Nat
deriving Repr, DecidableEq

/-- A suggestion row after normalization (score is a confidence in ℚ). -/
structure Suggestion where
  personaId : String
  name : String
  score : ℚ
deriving Repr, DecidableEq

/-- Score every persona in map iteration order keeping only positive
scorers (`if (score > 0) suggestions.push(...)`). -/
def scoreAll (personas : List (String × Persona)) (tw : List String) :
    List RawSuggestion :=
  personas.foldl (fun acc e =>
    if scorePersona tw e.2 > 0 then
      acc ++ [⟨e.2.id, e.2.name, scorePersona tw e.2⟩]
    else acc) []

/-- Stable insertion for descending order by score: an element is placed
before the first strictly-smaller-or-equal score it meets, which keeps the
original relative order of equal scores (JS `sort` is stable). -/
def insertDescBy (x : RawSuggestion) : List RawSuggestion → List RawSuggestion
  | [] => [x]
  | y :: ys => if y.score ≤ x.score then x :: y :: ys else y :: insertDescBy x ys

/-- Stable descending sort by raw score
(`suggestions.sort((a, b) => b.score - a.score)`). -/
def sortDescBy : List RawSuggestion → List RawSuggestion
  | [] => []
  | x :: xs => insertDescBy x (sortDescBy xs)

theorem mem_insertDescBy (x a : RawSuggestion) (l : List RawSuggestion) :
    x ∈ insertDescBy a l ↔ x = a ∨ x ∈ l := by
  induction l with
  | nil => simp [insertDescBy]
  | cons y ys ih =>
    unfold insertDescBy
    split
    · simp [List.mem_cons]
    · simp [List.mem_cons, ih]
      tauto

theorem mem_sortDescBy (x : RawSuggestion) :
    ∀ l, x ∈ sortDescBy l ↔ x ∈ l
  | [] => by simp [sortDescBy]
  | a :: l => by
    simp [sortDescBy, mem_insertDescBy, mem_sortDescBy x l, List.mem_cons]

theorem sortedDesc_insertDescBy (a : RawSuggestion) (l : List RawSuggestion)
    (h : List.Pairwise (fun x y => y.score ≤ x.score) l) :
    List.Pairwise (fun x y => y.score ≤ x.score) (insertDescBy a l) := by
  induction l with
  | nil => simp [insertDescBy]
  | cons y ys ih =>
    unfold insertDescBy
    have h' := List.pairwise_cons.mp h
    split
    · rename_i hge
      refine List.Pairwise.cons ?_ h
      intro b hb
      rcases List.mem_cons.mp hb with rfl | hb'
      · exact hge
      · exact le_trans (h'.1 b hb') hge
    · rename_i hlt
      refine List.Pairwise.cons ?_ (ih h'.2)
      intro b hb
      rcases (mem_insertDescBy b a ys).mp hb with rfl | hb'
      · exact le_of_not_le hlt
      · exact h'.1 b hb'

theorem sortedDesc_sortDescBy :
    ∀ l, List.Pairwise (fun x y => y.score ≤ x.score) (sortDescBy l)
  | [] => by simp [sortDescBy]
  | a :: l => sortedDesc_insertDescBy a (sortDescBy l) (sortedDesc_sortDescBy l)

theorem mem_scoreAll (tw : List String) :
    ∀ (ps : List (String × Persona)) (acc : List RawSuggestion)
      (x : RawSuggestion),
    x ∈ ps.foldl (fun acc e =>
      if scorePersona tw e.2 > 0 then
        acc ++ [⟨e.2.id, e.2.name, scorePersona tw e.2⟩]
      else acc) acc →
    x ∈ acc ∨ ∃ e ∈ ps, x = ⟨e.2.id, e.2.name, scorePersona tw e.2⟩ ∧
      0 < scorePersona tw e.2
  | [], acc, x, hx => Or.inl hx
  | e :: ps, acc, x, hx => by
    rcases mem_scoreAll tw ps _ x hx with hacc | ⟨e', he', hxe⟩
    · have hacc' : x ∈ if scorePersona tw e.2 > 0 then
          acc ++ [⟨e.2.id, e.2.name, scorePersona tw e.2⟩] else acc := hacc
      by_cases hsc : scorePersona tw e.2 > 0
      · rw [if_pos hsc] at hacc'
        rcases List.mem_append.mp hacc' with h' | h'
        · exact Or.inl h'
        · exact Or.inr ⟨e, List.mem_cons_self e ps, by simpa using h', hsc⟩
      · rw [if_neg hsc] at hacc'
        exact Or.inl hacc'
    · exact Or.inr ⟨e', List.mem_cons_of_mem e he', hxe⟩

theorem scoreAll_mem (personas : List (String × Persona)) (tw : List String)
    (x : RawSuggestion) (hx : x ∈ scoreAll personas tw) :
    0 < x.score ∧ ∃ e ∈ personas, x.personaId = e.2.id ∧
      x.score = scorePersona tw e.2 := by
  rcases mem_scoreAll tw personas [] x hx with h | ⟨e, he, hxe, hpos⟩
  · simp at h
  · subst hxe
    exact ⟨hpos, e, he, rfl, rfl⟩

/-- The sorted-and-truncated suggestion list of handleSuggestPersona. -/
def topSuggestionsOf (personas : List (String × Persona)) (task : String) :
    List RawSuggestion :=
  (sortDescBy (scoreAll personas (jsSplitWs (toLowerStr task)))).take 3

/-- The normalization divisor (`topSuggestions[0]?.score || 1`). -/
def maxScoreOf (top : List RawSuggestion) : Nat :=
  match top.head? with
  | some t => if t.score = 0 then 1 else t.score
  | none => 1

/-- PersonaServer.handleSuggestPersona: reject an empty or whitespace-only
task, tokenize the lowercased task, score all personas, keep positive
scorers, sort descending (stable), truncate to 3, then divide every
retained score by the top retained score. -/
def suggestPersona (personas : List (String × Persona)) (task : String) :
    Except McpError (List Suggestion) :=
  if trimStr task = "" then
    .error (McpErrorHandler.invalidRequest "Task description cannot be empty")
  else
    .ok ((topSuggestionsOf personas task).map
      (fun t => ⟨t.personaId, t.name,
        (t.score : ℚ) / ((maxScoreOf (topSuggestionsOf personas task)) : ℚ)⟩))

/-- The Scenario B persona with Python expertise. -/
def pythonPersona : Persona :=
  { id := "python-dev", name := "Python Dev", description := "a python helper",
    systemPrompt := "", traits := [], communicationStyle := "",
    expertise := ["Python", "debugging"] }

/-- The Scenario B unrelated persona. -/
def chefPersona : Persona :=
  { id := "chef", name := "Chef", description := "a chef",
    systemPrompt := "", traits := [], communicationStyle := "",
    expertise := ["cooking"] }

/-- Concrete evaluation of Scenario B: the Python-capable persona is the
only positive scorer for the query, and is returned with confidence 1. -/
theorem scenarioB_eval :
    suggestPersona [("python-dev", pythonPersona), ("chef", chefPersona)]
        "debug this Python code" =
      .ok [⟨"python-dev", "Python Dev", 1⟩] := by
  have htop : topSuggestionsOf [("python-dev", pythonPersona), ("chef", chefPersona)]
      "debug this Python code" = [⟨"python-dev", "Python Dev", 25⟩] := by decide
  unfold suggestPersona
  rw [if_neg (by decide), htop]
  simp only [maxScoreOf, List.head?_cons, List.map_cons, List.map_nil]
  norm_num

/-- C3: for every persona map and every accepted task description,
suggest_persona returns at most 3 suggestions, keeps only personas with a
positive additive score, sorts descending by raw score, and divides every
retained score by the top retained raw score, so every returned confidence
lies in (0,1] and the first entry's confidence is exactly 1; in the
Scenario B store the Python persona ranks first with confidence 1. -/
theorem suggestPersona_normalization (personas : List (String × Persona))
    (task : String) (out : List Suggestion)
    (h : suggestPersona personas task = .ok out) :
    out.length ≤ 3 ∧
    (∀ sugg ∈ out, 0 < sugg.score ∧ sugg.score ≤ 1) ∧
    (∀ y ys, out = y :: ys → y.score = 1) ∧
    (∀ sugg ∈ out, ∃ e ∈ personas, sugg.personaId = e.2.id ∧
       0 < scorePersona (jsSplitWs (toLowerStr task)) e.2) ∧
    List.Pairwise (fun a b => b.score ≤ a.score) out ∧
    suggestPersona [("python-dev", pythonPersona), ("chef", chefPersona)]
        "debug this Python code" =
      .ok [⟨"python-dev", "Python Dev", 1⟩] := by
  have hmemtop : ∀ t ∈ topSuggestionsOf personas task,
      t ∈ scoreAll personas (jsSplitWs (toLowerStr task)) := by
    intro t ht
    exact (mem_sortDescBy t _).mp (List.take_subset 3 _ ht)
  have hpos : ∀ t ∈ topSuggestionsOf personas task, 0 < t.score :=
    fun t ht => (scoreAll_mem personas _ t (hmemtop t ht)).1
  have hsorttop : List.Pairwise (fun x y => y.score ≤ x.score)
      (topSuggestionsOf personas task) :=
    List.Pairwise.sublist (List.take_sublist 3 _) (sortedDesc_sortDescBy _)
  have hms : ∀ y ys, topSuggestionsOf personas task = y :: ys →
      maxScoreOf (topSuggestionsOf personas task) = y.score := by
    intro y ys htk
    have hy : y.score ≠ 0 :=
      Nat.pos_iff_ne_zero.mp (hpos y (by rw [htk]; exact List.mem_cons_self y ys))
    rw [htk]
    simp [maxScoreOf, hy]
  have hmax : ∀ y ys, topSuggestionsOf personas task = y :: ys →
      ∀ t ∈ topSuggestionsOf personas task, t.score ≤ y.score := by
    intro y ys htk t ht
    rw [htk] at ht
    rcases List.mem_cons.mp ht with rfl | ht'
    · exact le_refl _
    · exact (List.pairwise_cons.mp (htk ▸ hsorttop)).1 t ht'
  have hout : out = (topSuggestionsOf personas task).map
      (fun t => ⟨t.personaId, t.name, (t.score : ℚ) /
        ((maxScoreOf (topSuggestionsOf personas task)) : ℚ)⟩) := by
    unfold suggestPersona at h
    split at h
    · exact absurd h (by simp)
    · simpa using h.symm
  refine ⟨?_, ?_, ?_, ?_, ?_, ?_⟩
  · rw [hout, List.length_map]
    exact List.length_take_le 3 _
  · intro sugg hsugg
    rw [hout] at hsugg
    obtain ⟨t, ht, rfl⟩ := List.mem_map.mp hsugg
    obtain ⟨y, ys, htk⟩ := List.exists_cons_of_ne_nil (List.ne_nil_of_mem ht)
    have hy : 0 < y.score := hpos y (by rw [htk]; exact List.mem_cons_self y ys)
    have hyq : (0 : ℚ) < (y.score : ℚ) := by exact_mod_cast hy
    have htq : (0 : ℚ) < (t.score : ℚ) := by exact_mod_cast hpos t ht
    simp only [hms y ys htk]
    constructor
    · exact div_pos htq hyq
    · exact (div_le_one hyq).mpr (by exact_mod_cast hmax y ys htk t ht)
  · intro y ys hcons
    rw [hout] at hcons
    have hne : topSuggestionsOf personas task ≠ [] := by
      intro h0
      rw [h0] at hcons
      simp at hcons
    obtain ⟨t, ts, htk⟩ := List.exists_cons_of_ne_nil hne
    rw [htk] at hcons
    simp only [List.map_cons, List.cons.injEq] at hcons
    have ht0 : t.score ≠ 0 :=
      Nat.pos_iff_ne_zero.mp (hpos t (by rw [htk]; exact List.mem_cons_self t ts))
    have hms' : maxScoreOf (t :: ts) = t.score := by
      rw [← htk]
      exact hms t ts htk
    rw [← hcons.1]
    show (t.score : ℚ) / ((maxScoreOf (t :: ts)) : ℚ) = 1
    rw [hms']
    exact div_self (by exact_mod_cast ht0)
  · intro sugg hsugg
    rw [hout] at hsugg
    obtain ⟨t, ht, rfl⟩ := List.mem_map.mp hsugg
    obtain ⟨_, e, he, hid, hsc⟩ := scoreAll_mem personas _ t (hmemtop t ht)
    exact ⟨e, he, hid, by rw [← hsc]; exact hpos t ht⟩
  · rw [hout, List.pairwise_map]
    by_cases h0 : topSuggestionsOf personas task = []
    · rw [h0]
      exact List.Pairwise.nil
    · obtain ⟨y, ys, htk⟩ := List.exists_cons_of_ne_nil h0
      refine hsorttop.imp ?_
      intro a b hab
      have hy : 0 < y.score := hpos y (by rw [htk]; exact List.mem_cons_self y ys)
      have hmq : (0 : ℚ) < ((maxScoreOf (topSuggestionsOf personas task)) : ℚ) := by
        rw [hms y ys htk]
        exact_mod_cast hy
      exact (div_le_div_iff_of_pos_right hmq).mpr (by exact_mod_cast hab)
  · exact scenarioB_eval

/-- Witness: suggestPersona_normalization applied to the Scenario B store
and the query of Scenario B. -/
theorem suggestPersona_normalization_witness :
    ∃ out, suggestPersona [("python-dev", pythonPersona), ("chef", chefPersona)]
        "debug this Python code" = .ok out ∧
      out.length ≤ 3 ∧ (∀ sugg ∈ out, 0 < sugg.score ∧ sugg.score ≤ 1) ∧
      (∀ y ys, out = y :: ys → y.score = 1) := by
  have h : suggestPersona [("python-dev", pythonPersona), ("chef", chefPersona)]
      "debug this Python code" = .ok [⟨"python-dev", "Python Dev", 1⟩] :=
    scenarioB_eval
  obtain ⟨h1, h2, h3, _⟩ := suggestPersona_normalization _ _ _ h
  exact ⟨_, h, h1, h2, h3⟩

/-! ## The usage statistics tracker (PersonaStatsManager,
src/utils/personaStats.ts) -/

/-- A per-persona usage statistics record. -/
structure PersonaStats where
  personaId : String
  usageCount : Nat
  lastUsed : Nat
  averageSessionDuration : ℚ
  successRate : ℚ
  commonTasks : List String
deriving Repr, DecidableEq

/-- JS `Math.round` on a rational. -/
def jsRound (q : ℚ) : ℤ := ⌊q + 1 / 2⌋

/-- PersonaStatsManager.recordPersonaSwitchAway restricted to one stats
record: `marker` is the `sessionStartTimes` entry for this persona id (or
none), `now` the current time in milliseconds.  When a marker exists, the
session duration in seconds is folded into the running average — except
that a zero stored average is overwritten with the raw sample — and the
marker is deleted; then the success rate is recomputed by weighted-count
reconstruction.  Returns the updated record and the marker entry
afterwards. -/
def recordPersonaSwitchAway (stats : PersonaStats) (marker : Option Nat)
    (now : Nat) (wasSuccessful : Bool) : PersonaStats × Option Nat :=
  let p :=
    match marker with
    | some sessionStart =>
      let sessionDuration : ℚ := ((now - sessionStart : Nat) : ℚ) / 1000
      let avg :=
        if stats.averageSessionDuration = 0 then sessionDuration
        else (stats.averageSessionDuration * ((stats.usageCount : ℚ) - 1) +
          sessionDuration) / (stats.usageCount : ℚ)
      ({ stats with averageSessionDuration := avg }, (none : Option Nat))
    | none => (stats, marker)
  let totalSessions : ℚ := (p.1.usageCount : ℚ)
  let previousSuccesses : ℚ :=
    (jsRound (p.1.successRate * (totalSessions - 1)) : ℚ)
  let newSuccesses := previousSuccesses + (if wasSuccessful then 1 else 0)
  ({ p.1 with successRate := newSuccesses / totalSessions }, p.2)

/-- A stats record with usage count 2 and a zero running average (as left
by two switch-to events with no intervening switch-away). -/
def cexStats : PersonaStats :=
  { personaId := "p1", usageCount := 2, lastUsed := 0,
    averageSessionDuration := 0, successRate := 1, commonTasks := [] }

/-- C6 counterexample: with usageCount = 2, old average 0 and a 10-second
session, recordPersonaSwitchAway stores the raw sample 10, not the
weighted value (0 × (2−1) + 10) / 2 = 5 that the claimed formula demands. -/
theorem recordSwitchAway_average_counterexample :
    ¬ ((recordPersonaSwitchAway cexStats (some 0) 10000 true).1.averageSessionDuration =
      (cexStats.averageSessionDuration * ((cexStats.usageCount : ℚ) - 1) +
        ((10000 - 0 : Nat) : ℚ) / 1000) / (cexStats.usageCount : ℚ)) := by
  norm_num [recordPersonaSwitchAway, cexStats]

/-- C6 (amended): when a session-start marker exists, the new average
equals (oldAverage × (usageCount − 1) + elapsedSeconds) / usageCount
whenever the old average is nonzero; when the old average is zero the new
average is the raw elapsed duration; in both cases the marker is cleared. -/
theorem recordSwitchAway_average (stats : PersonaStats) (start now : Nat)
    (wasSuccessful : Bool) :
    (stats.averageSessionDuration ≠ 0 →
      (recordPersonaSwitchAway stats (some start) now
          wasSuccessful).1.averageSessionDuration =
        (stats.averageSessionDuration * ((stats.usageCount : ℚ) - 1) +
          ((now - start : Nat) : ℚ) / 1000) / (stats.usageCount : ℚ)) ∧
    (stats.averageSessionDuration = 0 →
      (recordPersonaSwitchAway stats (some start) now
          wasSuccessful).1.averageSessionDuration =
        ((now - start : Nat) : ℚ) / 1000) ∧
    (recordPersonaSwitchAway stats (some start) now wasSuccessful).2 = none := by
  refine ⟨?_, ?_, ?_⟩
  · intro h
    simp only [recordPersonaSwitchAway]
    rw [if_neg h]
  · intro h
    simp only [recordPersonaSwitchAway]
    rw [if_pos h]
  · simp only [recordPersonaSwitchAway]

/-- A stats record with a nonzero running average. -/
def witStats : PersonaStats :=
  { personaId := "p1", usageCount := 2, lastUsed := 0,
    averageSessionDuration := 4, successRate := 1, commonTasks := [] }

/-- Witness: recordSwitchAway_average applied to a record with nonzero
average, a 2-second session and usage count 2. -/
theorem recordSwitchAway_average_witness :
    witStats.averageSessionDuration ≠ 0 ∧
    (recordPersonaSwitchAway witStats (some 0) 2000
        true).1.averageSessionDuration =
      (witStats.averageSessionDuration * ((witStats.usageCount : ℚ) - 1) +
        ((2000 - 0 : Nat) : ℚ) / 1000) / (witStats.usageCount : ℚ) ∧
    (recordPersonaSwitchAway witStats (some 0) 2000 true).2 = none := by
  have h := recordSwitchAway_average witStats 0 2000 true
  exact ⟨by norm_num [witStats], h.1 (by norm_num [witStats]), h.2.2⟩

/-! ## The modification engine (PersonaUtils, src/utils/personaUtils.ts):
pattern matching for name/description replacement -/

/-- The double-quote character. -/
def dqChar : Char := Char.ofNat 34

/-- The single-quote character. -/
def sqChar : Char := Char.ofNat 39

/-- A token of the simplified modification patterns: a case-insensitive
literal, a whitespace run `\s+`, a quoted capture (quote, one or more
non-quote characters captured, quote), or a skipped quoted section
(quote, any non-quote characters, quote). -/
inductive RTok where
  | lit (s : String)
  | ws
  | cap (q : Char)
  | skipQuoted (q : Char)

/-- Case-insensitive literal prefix match returning the rest (regex /i). -/
def stripPrefixCI : List Char → List Char → Option (List Char)
  | [], cs => some cs
  | _ :: _, [] => none
  | p :: ps, c :: cs =>
    if p.toLower = c.toLower then stripPrefixCI ps cs else none

/-- Match a token sequence at the start of `cs`; return the capture (if
any) and the rest.  The tokens translate the source regexes: every `\s+`
is followed by a non-whitespace token and every `[^q]+`/`[^q]*` is
followed by the closing quote, so maximal munch matches the regex
semantics without backtracking. -/
def matchToksAt : List RTok → List Char → Option (Option String × List Char)
  | [], cs => some (none, cs)
  | .lit s :: ts, cs =>
    match stripPrefixCI s.data cs with
    | some cs' => matchToksAt ts cs'
    | none => none
  | .ws :: ts, cs =>
    match cs with
    | [] => none
    | c :: cs' =>
      if c.isWhitespace then matchToksAt ts (cs'.dropWhile Char.isWhitespace)
      else none
  | .cap q :: ts, cs =>
    match cs with
    | [] => none
    | c :: cs' =>
      if c = q then
        let body := cs'.takeWhile (fun d => !(d == q))
        let rest := cs'.dropWhile (fun d => !(d == q))
        if body.isEmpty then none
        else
          match rest with
          | r :: rest' =>
            if r = q then
              match matchToksAt ts rest' with
              | some (some c', rem) => some (some c', rem)
              | some (none, rem) => some (some body.asString, rem)
              | none => none
            else none
          | [] => none
      else none
  | .skipQuoted q :: ts, cs =>
    match cs with
    | [] => none
    | c :: cs' =>
      if c = q then
        let rest := cs'.dropWhile (fun d => !(d == q))
        match rest with
        | r :: rest' => if r = q then matchToksAt ts rest' else none
        | [] => none
      else none

/-- Try the expanded variants of one regex at one position, in regex
backtracking preference order (optional groups present first). -/
def matchVariantsAt (variants : List (List RTok)) (cs : List Char) :
    Option String :=
  match variants with
  | [] => none
  | v :: vs =>
    match matchToksAt v cs with
    | some (some c', _) => some c'
    | some (none, _) => matchVariantsAt vs cs
    | none => matchVariantsAt vs cs

/-- JS `s.match(pattern)` capture extraction: leftmost matching position
first, variants in preference order at each position. -/
def runPattern (variants : List (List RTok)) : List Char → Option String
  | [] => matchVariantsAt variants []
  | c :: cs =>
    match matchVariantsAt variants (c :: cs) with
    | some c' => some c'
    | none => runPattern variants cs

/-- The name-change regexes of PersonaUtils.MODIFICATION_PATTERNS, in
source order, each expanded into its optional-group variants. -/
def namePatterns : List (List (List RTok)) :=
  [ [[.lit "change", .ws, .lit "the", .ws, .lit "name", .ws, .lit "to", .ws, .cap dqChar],
     [.lit "change", .ws, .lit "name", .ws, .lit "to", .ws, .cap dqChar]],
    [[.lit "change", .ws, .lit "the", .ws, .lit "name", .ws, .lit "to", .ws, .cap sqChar],
     [.lit "change", .ws, .lit "name", .ws, .lit "to", .ws, .cap sqChar]],
    [[.lit "update", .ws, .lit "the", .ws, .lit "name", .ws, .lit "to", .ws, .cap dqChar],
     [.lit "update", .ws, .lit "name", .ws, .lit "to", .ws, .cap dqChar]],
    [[.lit "update", .ws, .lit "the", .ws, .lit "name", .ws, .lit "to", .ws, .cap sqChar],
     [.lit "update", .ws, .lit "name", .ws, .lit "to", .ws, .cap sqChar]],
    [[.lit "set", .ws, .lit "the", .ws, .lit "name", .ws, .lit "to", .ws, .cap dqChar],
     [.lit "set", .ws, .lit "the", .ws, .lit "name", .ws, .cap dqChar],
     [.lit "set", .ws, .lit "name", .ws, .lit "to", .ws, .cap dqChar],
     [.lit "set", .ws, .lit "name", .ws, .cap dqChar]],
    [[.lit "set", .ws, .lit "the", .ws, .lit "name", .ws, .lit "to", .ws, .cap sqChar],
     [.lit "set", .ws, .lit "the", .ws, .lit "name", .ws, .cap sqChar],
     [.lit "set", .ws, .lit "name", .ws, .lit "to", .ws, .cap sqChar],
     [.lit "set", .ws, .lit "name", .ws, .cap sqChar]],
    [[.lit "name", .ws, .lit "to", .ws, .cap dqChar]],
    [[.lit "name", .ws, .lit "to", .ws, .cap sqChar]],
    [[.lit "change", .ws, .lit "the", .ws, .lit "name", .ws, .lit "from", .ws,
        .skipQuoted dqChar, .ws, .lit "to", .ws, .cap dqChar],
     [.lit "change", .ws, .lit "name", .ws, .lit "from", .ws,
        .skipQuoted dqChar, .ws, .lit "to", .ws, .cap dqChar]],
    [[.lit "change", .ws, .lit "the", .ws, .lit "name", .ws, .lit "from", .ws,
        .skipQuoted sqChar, .ws, .lit "to", .ws, .cap sqChar],
     [.lit "change", .ws, .lit "name", .ws, .lit "from", .ws,
        .skipQuoted sqChar, .ws, .lit "to", .ws, .cap sqChar]],
    [[.lit "update", .ws, .lit "the", .ws, .lit "name", .ws, .lit "from", .ws,
        .skipQuoted dqChar, .ws, .lit "to", .ws, .cap dqChar],
     [.lit "update", .ws, .lit "name", .ws, .lit "from", .ws,
        .skipQuoted dqChar, .ws, .lit "to", .ws, .cap dqChar]],
    [[.lit "update", .ws, .lit "the", .ws, .lit "name", .ws, .lit "from", .ws,
        .skipQuoted sqChar, .ws, .lit "to", .ws, .cap sqChar],
     [.lit "update", .ws, .lit "name", .ws, .lit "from", .ws,
        .skipQuoted sqChar, .ws, .lit "to", .ws, .cap sqChar]] ]

/-- The description-change regexes, in source order, expanded. -/
def descriptionPatterns : List (List (List RTok)) :=
  [ [[.lit "change", .ws, .lit "the", .ws, .lit "description", .ws, .lit "to", .ws, .cap dqChar],
     [.lit "change", .ws, .lit "description", .ws, .lit "to", .ws, .cap dqChar]],
    [[.lit "change", .ws, .lit "the", .ws, .lit "description", .ws, .lit "to", .ws, .cap sqChar],
     [.lit "change", .ws, .lit "description", .ws, .lit "to", .ws, .cap sqChar]],
    [[.lit "update", .ws, .lit "the", .ws, .lit "description", .ws, .lit "to", .ws, .cap dqChar],
     [.lit "update", .ws, .lit "description", .ws, .lit "to", .ws, .cap dqChar]],
    [[.lit "update", .ws, .lit "the", .ws, .lit "description", .ws, .lit "to", .ws, .cap sqChar],
     [.lit "update", .ws, .lit "description", .ws, .lit "to", .ws, .cap sqChar]],
    [[.lit "set", .ws, .lit "the", .ws, .lit "description", .ws, .lit "to", .ws, .cap dqChar],
     [.lit "set", .ws, .lit "the", .ws, .lit "description", .ws, .cap dqChar],
     [.lit "set", .ws, .lit "description", .ws, .lit "to", .ws, .cap dqChar],
     [.lit "set", .ws, .lit "description", .ws, .cap dqChar]],
    [[.lit "set", .ws, .lit "the", .ws, .lit "description", .ws, .lit "to", .ws, .cap sqChar],
     [.lit "set", .ws, .lit "the", .ws, .lit "description", .ws, .cap sqChar],
     [.lit "set", .ws, .lit "description", .ws, .lit "to", .ws, .cap sqChar],
     [.lit "set", .ws, .lit "description", .ws, .cap sqChar]],
    [[.lit "description", .ws, .lit "to", .ws, .cap dqChar]],
    [[.lit "description", .ws, .lit "to", .ws, .cap sqChar]],
    [[.lit "change", .ws, .lit "the", .ws, .lit "description", .ws, .lit "from", .ws,
        .skipQuoted dqChar, .ws, .lit "to", .ws, .cap dqChar],
     [.lit "change", .ws, .lit "description", .ws, .lit "from", .ws,
        .skipQuoted dqChar, .ws, .lit "to", .ws, .cap dqChar]],
    [[.lit "change", .ws, .lit "the", .ws, .lit "description", .ws, .lit "from", .ws,
        .skipQuoted sqChar, .ws, .lit "to", .ws, .cap sqChar],
     [.lit "change", .ws, .lit "description", .ws, .lit "from", .ws,
        .skipQuoted sqChar, .ws, .lit "to", .ws, .cap sqChar]] ]

/-- The field selector of PersonaUtils.extractModificationValue. -/
inductive ModField where
  | name
  | description

/-- PersonaUtils.extractModificationValue: try the field's regexes in
order; on the first match, trim the capture and reject a whitespace-only
value (returning null immediately, not falling through). -/
def extractModificationValue (modifications : String) (field : ModField) :
    Option String :=
  if modifications = "" then none
  else
    let rec go : List (List (List RTok)) → Option String
      | [] => none
      | p :: ps =>
        match runPattern p modifications.data with
        | some v =>
          let value := trimStr v
          if value = "" then none else some value
        | none => go ps
    go (match field with
        | .name => namePatterns
        | .description => descriptionPatterns)

/-- One technology expertise table entry of
PersonaUtils.addTechnologyExpertise. -/
structure TechConfig where
  tech : String
  skills : List String
  prompt : String
  keywords : Option (List String)
deriving Repr, DecidableEq

/-- The techExpertise table, in object-literal order. -/
def techExpertise : List TechConfig :=
  [ { tech := "React",
      skills := ["React", "JavaScript", "frontend development"],
      prompt := "You have deep expertise in React and modern frontend development.",
      keywords := none },
    { tech := "Python",
      skills := ["Python", "data science", "backend development"],
      prompt := "You have extensive experience with Python and its ecosystem.",
      keywords := none },
    { tech := "security",
      skills := ["security", "cybersecurity", "secure coding"],
      prompt := "You prioritize security best practices in all recommendations.",
      keywords := some ["security", "cybersecurity"] } ]

/-- The trigger test of one table entry
(`keywords.some(k => modifications.includes(k))`). -/
def techTrigger (modifications : String) (tc : TechConfig) : Bool :=
  (match tc.keywords with
   | some ks => ks
   | none => [tc.tech]).any (fun k => includesStr modifications k)

/-- One fold step of addTechnologyExpertise on the persona value. -/
def addTechStep (modifications : String) (up : Persona) (tc : TechConfig) :
    Persona :=
  if techTrigger modifications tc && !(up.expertise.contains tc.tech) then
    { up with
      expertise := up.expertise ++ tc.skills,
      systemPrompt := up.systemPrompt ++ " " ++ tc.prompt }
  else up

/-- PersonaUtils.addTechnologyExpertise: for each domain whose trigger
substring occurs in the instruction and whose canonical tag is not yet in
expertise, append the domain's skill tags and prompt sentence. -/
def addTechnologyExpertise (persona : Persona) (modifications : String) :
    Persona :=
  techExpertise.foldl (addTechStep modifications) persona

/-- PersonaUtils.applyPersonaModifications (value semantics; the source's
defensive array copies are identities on values — the aliasing behaviour
is modelled separately in the heap embedding below). -/
def applyPersonaModifications (persona : Persona) (modifications : String) :
    Persona :=
  if modifications = "" then persona
  else
    let up1 :=
      match extractModificationValue modifications ModField.name with
      | some newName => { persona with name := newName }
      | none => persona
    let up2 :=
      match extractModificationValue modifications ModField.description with
      | some newDescription => { up1 with description := newDescription }
      | none => up1
    let up3 :=
      if includesStr modifications "more formal" ||
          includesStr modifications "formal" then
        { up2 with
          communicationStyle := "formal and professional",
          systemPrompt := replaceFirst up2.systemPrompt "You are"
            "You are a professional and formal" }
      else up2
    let up4 :=
      if includesStr modifications "more casual" ||
          includesStr modifications "casual" then
        { up3 with
          communicationStyle := "casual and friendly",
          systemPrompt := replaceFirst up3.systemPrompt
            "professional and formal" "casual and approachable" }
      else up3
    let up5 :=
      if includesStr modifications "more concise" ||
          includesStr modifications "concise" then
        { up4 with
          communicationStyle :=
            up4.communicationStyle ++ ", concise and to-the-point",
          systemPrompt :=
            up4.systemPrompt ++ " Keep your responses brief and focused." }
      else up4
    addTechnologyExpertise up5 modifications

/-- One fold step of addTechnologyExpertise restricted to the expertise
list. -/
def addTechStepE (modifications : String) (acc : List String)
    (tc : TechConfig) : List String :=
  if techTrigger modifications tc && !(acc.contains tc.tech) then
    acc ++ tc.skills
  else acc

theorem addTechStep_expertise (s : String) (up : Persona) (tc : TechConfig) :
    (addTechStep s up tc).expertise = addTechStepE s up.expertise tc := by
  unfold addTechStep addTechStepE
  by_cases h : (techTrigger s tc && !(up.expertise.contains tc.tech)) = true
  · rw [if_pos h, if_pos h]
  · rw [if_neg h, if_neg h]

theorem addTech_fold_expertise : ∀ (l : List TechConfig) (p : Persona)
    (s : String),
    (l.foldl (addTechStep s) p).expertise =
      l.foldl (addTechStepE s) p.expertise
  | [], _, _ => rfl
  | tc :: l, p, s => by
    show (l.foldl (addTechStep s) (addTechStep s p tc)).expertise =
      l.foldl (addTechStepE s) (addTechStepE s p.expertise tc)
    rw [addTech_fold_expertise l (addTechStep s p tc) s,
      addTechStep_expertise]

theorem addTechStepE_cases (s : String) (acc : List String) (tc : TechConfig) :
    addTechStepE s acc tc = acc ∨
      (addTechStepE s acc tc = acc ++ tc.skills ∧ tc.tech ∉ acc) := by
  unfold addTechStepE
  by_cases h : (techTrigger s tc && !(acc.contains tc.tech)) = true
  · rw [if_pos h]
    refine Or.inr ⟨rfl, ?_⟩
    intro hmem
    simp only [Bool.and_eq_true, Bool.not_eq_true'] at h
    rw [(by simpa using hmem : acc.contains tc.tech = true)] at h
    exact absurd h.2 (by simp)
  · rw [if_neg h]
    exact Or.inl rfl

theorem addTech_foldE_append : ∀ (l : List TechConfig) (e : List String)
    (s : String), ∃ r, l.foldl (addTechStepE s) e = e ++ r
  | [], e, _ => ⟨[], by simp⟩
  | tc :: l, e, s => by
    obtain ⟨r, hr⟩ := addTech_foldE_append l (addTechStepE s e tc) s
    show ∃ r', l.foldl (addTechStepE s) (addTechStepE s e tc) = e ++ r'
    rcases addTechStepE_cases s e tc with h | ⟨h, _⟩
    · exact ⟨r, by rw [hr, h]⟩
    · exact ⟨tc.skills ++ r, by rw [hr, h, List.append_assoc]⟩

theorem addTechStepE_of_add (s : String) (acc : List String) (tc : TechConfig)
    (htrig : techTrigger s tc = true) (hmem : tc.tech ∉ acc) :
    addTechStepE s acc tc = acc ++ tc.skills := by
  unfold addTechStepE
  rw [if_pos]
  rw [htrig, (by simpa using hmem : acc.contains tc.tech = false)]
  rfl

theorem addTechStepE_count_ne (x : String) (s : String) (acc : List String)
    (tc : TechConfig) (hx : x ∉ tc.skills) :
    (addTechStepE s acc tc).count x = acc.count x := by
  rcases addTechStepE_cases s acc tc with h | ⟨h, _⟩
  · rw [h]
  · rw [h, List.count_append, List.count_eq_zero.mpr hx, Nat.add_zero]

theorem addTechStepE_not_mem (x : String) (s : String) (acc : List String)
    (tc : TechConfig) (hx : x ∉ tc.skills) (hacc : x ∉ acc) :
    x ∉ addTechStepE s acc tc := by
  rcases addTechStepE_cases s acc tc with h | ⟨h, _⟩
  · rw [h]; exact hacc
  · rw [h]
    intro hmem
    rcases List.mem_append.mp hmem with h' | h'
    · exact hacc h'
    · exact hx h'

theorem addTech_foldE_establishes : ∀ (l : List TechConfig) (e : List String)
    (s : String), (∀ tc ∈ l, tc.tech ∈ tc.skills) →
    ∀ tc ∈ l, techTrigger s tc = true →
    tc.tech ∈ l.foldl (addTechStepE s) e
  | [], _, _, _, tc, htc, _ => by simp at htc
  | tc0 :: l, e, s, hskills, tc, htc, htrig => by
    rcases List.mem_cons.mp htc with rfl | htc'
    · have hstep : tc.tech ∈ addTechStepE s e tc := by
        by_cases hc : tc.tech ∈ e
        · rcases addTechStepE_cases s e tc with h | ⟨h, _⟩
          · rw [h]; exact hc
          · rw [h]; exact List.mem_append_left _ hc
        · rw [addTechStepE_of_add s e tc htrig hc]
          exact List.mem_append_right _
            (hskills tc (List.mem_cons_self tc l))
      obtain ⟨r, hr⟩ := addTech_foldE_append l (addTechStepE s e tc) s
      show tc.tech ∈ l.foldl (addTechStepE s) (addTechStepE s e tc)
      rw [hr]
      exact List.mem_append_left _ hstep
    · exact addTech_foldE_establishes l (addTechStepE s e tc0) s
        (fun tc' h' => hskills tc' (List.mem_cons_of_mem _ h')) tc htc' htrig

theorem addTech_foldE_fixpoint : ∀ (l : List TechConfig) (e : List String)
    (s : String), (∀ tc ∈ l, techTrigger s tc = true → tc.tech ∈ e) →
    l.foldl (addTechStepE s) e = e
  | [], _, _, _ => rfl
  | tc :: l, e, s, h => by
    have hstep : addTechStepE s e tc = e := by
      unfold addTechStepE
      by_cases htr : techTrigger s tc = true
      · rw [if_neg]
        rw [htr, (by simpa using h tc (List.mem_cons_self tc l) htr :
          e.contains tc.tech = true)]
        simp
      · rw [if_neg]
        rw [(by simpa using htr : techTrigger s tc = false)]
        simp
    show l.foldl (addTechStepE s) (addTechStepE s e tc) = e
    rw [hstep]
    exact addTech_foldE_fixpoint l e s
      (fun tc' h' ht' => h tc' (List.mem_cons_of_mem _ h') ht')

theorem addTech_foldE_count_preserved : ∀ (l : List TechConfig)
    (acc : List String) (s : String) (tc : TechConfig),
    tc.tech ∈ acc → acc.count tc.tech = 1 →
    (∀ tc' ∈ l, tc' = tc ∨ tc.tech ∉ tc'.skills) →
    (l.foldl (addTechStepE s) acc).count tc.tech = 1
  | [], _, _, _, _, hcount, _ => hcount
  | tc0 :: l, acc, s, tc, hmem, hcount, hl => by
    have hstep : (addTechStepE s acc tc0).count tc.tech = 1 ∧
        tc.tech ∈ addTechStepE s acc tc0 := by
      rcases hl tc0 (List.mem_cons_self tc0 l) with rfl | hne
      · have : addTechStepE s acc tc0 = acc := by
          unfold addTechStepE
          rw [(by simpa using hmem : acc.contains tc0.tech = true)]
          simp
        rw [this]
        exact ⟨hcount, hmem⟩
      · refine ⟨by rw [addTechStepE_count_ne _ _ _ _ hne]; exact hcount, ?_⟩
        rcases addTechStepE_cases s acc tc0 with h | ⟨h, _⟩
        · rw [h]; exact hmem
        · rw [h]; exact List.mem_append_left _ hmem
    show (l.foldl (addTechStepE s) (addTechStepE s acc tc0)).count tc.tech = 1
    exact addTech_foldE_count_preserved l _ s tc hstep.2 hstep.1
      (fun tc' h' => hl tc' (List.mem_cons_of_mem _ h'))

theorem addTech_foldE_count : ∀ (l : List TechConfig) (e : List String)
    (s : String) (tc : TechConfig),
    tc ∈ l → techTrigger s tc = true → tc.tech ∉ e →
    tc.tech ∈ tc.skills → tc.skills.count tc.tech = 1 →
    (∀ tc' ∈ l, tc' = tc ∨ tc.tech ∉ tc'.skills) →
    (l.foldl (addTechStepE s) e).count tc.tech = 1
  | [], _, _, _, htc, _, _, _, _, _ => by simp at htc
  | tc0 :: l, e, s, tc, htc, htrig, hnot, hskmem, hskcount, hl => by
    by_cases h0 : tc0 = tc
    · subst h0
      have hstep : addTechStepE s e tc0 = e ++ tc0.skills :=
        addTechStepE_of_add s e tc0 htrig hnot
      show (l.foldl (addTechStepE s) (addTechStepE s e tc0)).count tc0.tech = 1
      rw [hstep]
      refine addTech_foldE_count_preserved l _ s tc0
        (List.mem_append_right _ hskmem) ?_
        (fun tc' h' => hl tc' (List.mem_cons_of_mem _ h'))
      rw [List.count_append, List.count_eq_zero.mpr hnot, hskcount]
    · have htc' : tc ∈ l := by
        rcases List.mem_cons.mp htc with h | h
        · exact absurd h.symm h0
        · exact h
      have hne : tc.tech ∉ tc0.skills := by
        rcases hl tc0 (List.mem_cons_self tc0 l) with h | h
        · exact absurd h h0
        · exact h
      have hnot' : tc.tech ∉ addTechStepE s e tc0 :=
        addTechStepE_not_mem _ _ _ _ hne hnot
      show (l.foldl (addTechStepE s) (addTechStepE s e tc0)).count tc.tech = 1
      exact addTech_foldE_count l _ s tc htc' htrig hnot' hskmem hskcount
        (fun tc' h' => hl tc' (List.mem_cons_of_mem _ h'))

theorem apply_expertise (p : Persona) (s : String) (hs : s ≠ "") :
    (applyPersonaModifications p s).expertise =
      techExpertise.foldl (addTechStepE s) p.expertise := by
  unfold applyPersonaModifications
  rw [if_neg hs]
  unfold addTechnologyExpertise
  rw [addTech_fold_expertise]
  congr 1
  cases extractModificationValue s ModField.name <;>
    cases extractModificationValue s ModField.description <;>
      by_cases h3 : (includesStr s "more formal" || includesStr s "formal") = true <;>
        by_cases h4 : (includesStr s "more casual" || includesStr s "casual") = true <;>
          by_cases h5 : (includesStr s "more concise" || includesStr s "concise") = true <;>
            simp [h3, h4, h5]

/-- C8: applying a modification instruction twice yields the same
expertise as applying it once (for every instruction, triggering or not);
and for a triggered domain whose canonical tag is absent, the canonical
tag appears exactly once in the resulting expertise, because the skill
tags are appended only when the canonical tag is not already present. -/
theorem expertise_modification_idempotent :
    (∀ (p : Persona) (s : String),
      (applyPersonaModifications (applyPersonaModifications p s) s).expertise =
        (applyPersonaModifications p s).expertise) ∧
    (∀ (p : Persona) (s : String) (tc : TechConfig), tc ∈ techExpertise →
      techTrigger s tc = true → tc.tech ∉ p.expertise →
      ((applyPersonaModifications p s).expertise).count tc.tech = 1) := by
  constructor
  · intro p s
    by_cases hs : s = ""
    · subst hs
      simp [applyPersonaModifications]
    · rw [apply_expertise _ s hs, apply_expertise p s hs]
      apply addTech_foldE_fixpoint
      intro tc htc htrig
      exact addTech_foldE_establishes techExpertise p.expertise s
        (by decide) tc htc htrig
  · intro p s tc htc htrig hmem
    by_cases hs : s = ""
    · subst hs
      have hno : ∀ tc' ∈ techExpertise, techTrigger "" tc' = false := by decide
      rw [hno tc htc] at htrig
      exact absurd htrig (by simp)
    · rw [apply_expertise p s hs]
      have h1 : ∀ tc' ∈ techExpertise, tc'.tech ∈ tc'.skills := by decide
      have h2 : ∀ tc' ∈ techExpertise, tc'.skills.count tc'.tech = 1 := by
        decide
      have h3 : ∀ tc1 ∈ techExpertise, ∀ tc2 ∈ techExpertise,
          tc2 = tc1 ∨ tc1.tech ∉ tc2.skills := by decide
      exact addTech_foldE_count techExpertise p.expertise s tc htc htrig hmem
        (h1 tc htc) (h2 tc htc) (h3 tc htc)

/-- Witness: expertise_modification_idempotent applied to a persona with
empty expertise and the instruction "add expertise in React". -/
theorem expertise_modification_idempotent_witness :
    ("React" ∈ (⟨"p1", "P1", "", "", [], "", []⟩ : Persona).expertise → False) ∧
    techTrigger "add expertise in React"
      ⟨"React", ["React", "JavaScript", "frontend development"],
        "You have deep expertise in React and modern frontend development.",
        none⟩ = true ∧
    (applyPersonaModifications (⟨"p1", "P1", "", "", [], "", []⟩ : Persona)
        "add expertise in React").expertise.count "React" = 1 ∧
    (applyPersonaModifications (applyPersonaModifications
        (⟨"p1", "P1", "", "", [], "", []⟩ : Persona) "add expertise in React")
        "add expertise in React").expertise =
      (applyPersonaModifications (⟨"p1", "P1", "", "", [], "", []⟩ : Persona)
        "add expertise in React").expertise := by
  refine ⟨by decide, by decide, ?_, ?_⟩
  · exact expertise_modification_idempotent.2
      (⟨"p1", "P1", "", "", [], "", []⟩ : Persona) "add expertise in React"
      ⟨"React", ["React", "JavaScript", "frontend development"],
        "You have deep expertise in React and modern frontend development.",
        none⟩ (by decide) (by decide) (by decide)
  · exact expertise_modification_idempotent.1
      (⟨"p1", "P1", "", "", [], "", []⟩ : Persona) "add expertise in React"

/-! ## A heap model of the modification engine for the frame property:
JS arrays are mutable objects, so traits/expertise are modelled as
references into a heap of string arrays, and each `[...]` spread in the
source is a fresh allocation. -/

/-- A heap of string arrays; references are allocation indices below
`next`. -/
structure Heap where
  next : Nat
  mem : Nat → List String

/-- Allocate a fresh array, returning the new heap and the reference. -/
def Heap.alloc (h : Heap) (xs : List String) : Heap × Nat :=
  ({ next := h.next + 1,
     mem := fun i => if i = h.next then xs else h.mem i }, h.next)

/-- A persona record whose traits and expertise arrays live in the heap. -/
structure PersonaRef where
  id : String
  name : String
  description : String
  systemPrompt : String
  traits : Nat
  communicationStyle : String
  expertise : Nat

/-- One fold step of addTechnologyExpertise in the heap model: reading
the current expertise array, and allocating the spread copy
`[...updatedPersona.expertise, ...config.skills]` when the domain fires. -/
def addTechStepH (modifications : String) (acc : Heap × PersonaRef)
    (tc : TechConfig) : Heap × PersonaRef :=
  if techTrigger modifications tc &&
      !((acc.1.mem acc.2.expertise).contains tc.tech) then
    let a := acc.1.alloc (acc.1.mem acc.2.expertise ++ tc.skills)
    (a.1, { acc.2 with
      expertise := a.2,
      systemPrompt := acc.2.systemPrompt ++ " " ++ tc.prompt })
  else acc

/-- PersonaUtils.addTechnologyExpertise in the heap model. -/
def addTechnologyExpertiseH (h : Heap) (p : PersonaRef)
    (modifications : String) : Heap × PersonaRef :=
  techExpertise.foldl (addTechStepH modifications) (h, p)

/-- The name/description/tone update chain of applyPersonaModifications
on a heap-backed persona (these steps never touch the arrays, only the
scalar string fields). -/
def applyToneH (up0 : PersonaRef) (modifications : String) : PersonaRef :=
  let up1 :=
    match extractModificationValue modifications ModField.name with
    | some newName => { up0 with name := newName }
    | none => up0
  let up2 :=
    match extractModificationValue modifications ModField.description with
    | some newDescription => { up1 with description := newDescription }
    | none => up1
  let up3 :=
    if includesStr modifications "more formal" ||
        includesStr modifications "formal" then
      { up2 with
        communicationStyle := "formal and professional",
        systemPrompt := replaceFirst up2.systemPrompt "You are"
          "You are a professional and formal" }
    else up2
  let up4 :=
    if includesStr modifications "more casual" ||
        includesStr modifications "casual" then
      { up3 with
        communicationStyle := "casual and friendly",
        systemPrompt := replaceFirst up3.systemPrompt
          "professional and formal" "casual and approachable" }
    else up3
  if includesStr modifications "more concise" ||
      includesStr modifications "concise" then
    { up4 with
      communicationStyle :=
        up4.communicationStyle ++ ", concise and to-the-point",
      systemPrompt :=
        up4.systemPrompt ++ " Keep your responses brief and focused." }
  else up4

/-- PersonaUtils.applyPersonaModifications in the heap model: the spreads
`[...persona.expertise]` and `[...persona.traits]` allocate fresh copies,
and all later updates build new records around those copies. -/
def applyPersonaModificationsH (h : Heap) (persona : PersonaRef)
    (modifications : String) : Heap × PersonaRef :=
  if modifications = "" then (h, persona)
  else
    let aE := h.alloc (h.mem persona.expertise)
    let aT := aE.1.alloc (aE.1.mem persona.traits)
    let up0 : PersonaRef := { persona with expertise := aE.2, traits := aT.2 }
    addTechnologyExpertiseH aT.1 (applyToneH up0 modifications) modifications

theorem alloc_mem_lt (h : Heap) (xs : List String) (i : Nat)
    (hi : i < h.next) : (h.alloc xs).1.mem i = h.mem i := by
  show (if i = h.next then xs else h.mem i) = h.mem i
  rw [if_neg (by omega)]

theorem addTechH_fold_frame : ∀ (l : List TechConfig) (s : String)
    (acc : Heap × PersonaRef) (n : Nat),
    n ≤ acc.1.next → n ≤ acc.2.expertise →
    n ≤ (l.foldl (addTechStepH s) acc).1.next ∧
    (∀ i < n, (l.foldl (addTechStepH s) acc).1.mem i = acc.1.mem i) ∧
    (l.foldl (addTechStepH s) acc).2.traits = acc.2.traits ∧
    n ≤ (l.foldl (addTechStepH s) acc).2.expertise
  | [], _, acc, n, hn, hne => ⟨hn, fun _ _ => rfl, rfl, hne⟩
  | tc :: l, s, acc, n, hn, hne => by
    have hstep : n ≤ (addTechStepH s acc tc).1.next ∧
        (∀ i < n, (addTechStepH s acc tc).1.mem i = acc.1.mem i) ∧
        (addTechStepH s acc tc).2.traits = acc.2.traits ∧
        n ≤ (addTechStepH s acc tc).2.expertise := by
      unfold addTechStepH
      split
      · refine ⟨by show n ≤ acc.1.next + 1; omega, ?_, rfl,
          by show n ≤ acc.1.next; omega⟩
        intro i hi
        show (if i = acc.1.next then _ else acc.1.mem i) = acc.1.mem i
        rw [if_neg (by omega)]
      · exact ⟨hn, fun _ _ => rfl, rfl, hne⟩
    obtain ⟨h1, h2, h3, h4⟩ := hstep
    obtain ⟨g1, g2, g3, g4⟩ :=
      addTechH_fold_frame l s (addTechStepH s acc tc) n h1 h4
    rw [List.foldl_cons]
    refine ⟨g1, ?_, by rw [g3, h3], g4⟩
    intro i hi
    rw [g2 i hi, h2 i hi]

theorem addTechH_frame (h0 : Heap) (q : PersonaRef) (s : String) (n : Nat)
    (hn : n ≤ h0.next) (hqe : n ≤ q.expertise) :
    n ≤ (addTechnologyExpertiseH h0 q s).1.next ∧
    (∀ i < n, (addTechnologyExpertiseH h0 q s).1.mem i = h0.mem i) ∧
    (addTechnologyExpertiseH h0 q s).2.traits = q.traits ∧
    n ≤ (addTechnologyExpertiseH h0 q s).2.expertise :=
  addTechH_fold_frame techExpertise s (h0, q) n hn hqe

theorem applyToneH_refs (up0 : PersonaRef) (s : String) :
    (applyToneH up0 s).traits = up0.traits ∧
    (applyToneH up0 s).expertise = up0.expertise := by
  unfold applyToneH
  cases extractModificationValue s ModField.name <;>
    cases extractModificationValue s ModField.description <;>
      by_cases h3 : (includesStr s "more formal" || includesStr s "formal") = true <;>
        by_cases h4 : (includesStr s "more casual" || includesStr s "casual") = true <;>
          by_cases h5 : (includesStr s "more concise" || includesStr s "concise") = true <;>
            simp [h3, h4, h5]

/-- C7: applyPersonaModifications does not mutate its argument: in the
heap model the contents of the argument persona's traits and expertise
arrays are unchanged by the call, the heap only grows, and for a
non-empty instruction the returned persona's arrays are fresh references
distinct from the argument's (the returned value is built from copies). -/
theorem applyPersonaModificationsH_frame (h : Heap) (p : PersonaRef)
    (s : String) (ht : p.traits < h.next) (he : p.expertise < h.next) :
    (applyPersonaModificationsH h p s).1.mem p.traits = h.mem p.traits ∧
    (applyPersonaModificationsH h p s).1.mem p.expertise = h.mem p.expertise ∧
    h.next ≤ (applyPersonaModificationsH h p s).1.next ∧
    (s ≠ "" → (applyPersonaModificationsH h p s).2.traits ≠ p.traits ∧
      (applyPersonaModificationsH h p s).2.expertise ≠ p.expertise) := by
  by_cases hs : s = ""
  · subst hs
    unfold applyPersonaModificationsH
    rw [if_pos rfl]
    exact ⟨rfl, rfl, le_refl _, fun hne => absurd rfl hne⟩
  · have heq : applyPersonaModificationsH h p s =
        addTechnologyExpertiseH
          ((h.alloc (h.mem p.expertise)).1.alloc
            ((h.alloc (h.mem p.expertise)).1.mem p.traits)).1
          (applyToneH { p with
              expertise := (h.alloc (h.mem p.expertise)).2,
              traits := ((h.alloc (h.mem p.expertise)).1.alloc
                ((h.alloc (h.mem p.expertise)).1.mem p.traits)).2 } s) s := by
      unfold applyPersonaModificationsH
      rw [if_neg hs]
    rw [heq]
    obtain ⟨htr, hex⟩ := applyToneH_refs { p with
        expertise := (h.alloc (h.mem p.expertise)).2,
        traits := ((h.alloc (h.mem p.expertise)).1.alloc
          ((h.alloc (h.mem p.expertise)).1.mem p.traits)).2 } s
    have hnB : h.next ≤ (((h.alloc (h.mem p.expertise)).1.alloc
        ((h.alloc (h.mem p.expertise)).1.mem p.traits)).1).next := by
      show h.next ≤ h.next + 1 + 1
      omega
    have hqe : h.next ≤ (applyToneH { p with
        expertise := (h.alloc (h.mem p.expertise)).2,
        traits := ((h.alloc (h.mem p.expertise)).1.alloc
          ((h.alloc (h.mem p.expertise)).1.mem p.traits)).2 } s).expertise := by
      rw [hex]
      exact le_refl _
    obtain ⟨g1, g2, g3, g4⟩ := addTechH_frame
      (((h.alloc (h.mem p.expertise)).1.alloc
          ((h.alloc (h.mem p.expertise)).1.mem p.traits)).1)
      (applyToneH { p with
        expertise := (h.alloc (h.mem p.expertise)).2,
        traits := ((h.alloc (h.mem p.expertise)).1.alloc
          ((h.alloc (h.mem p.expertise)).1.mem p.traits)).2 } s)
      s h.next hnB hqe
    refine ⟨?_, ?_, g1, fun _ => ⟨?_, ?_⟩⟩
    · rw [g2 p.traits ht]
      rw [show (((h.alloc (h.mem p.expertise)).1.alloc
          ((h.alloc (h.mem p.expertise)).1.mem p.traits)).1).mem p.traits =
        (h.alloc (h.mem p.expertise)).1.mem p.traits from
        alloc_mem_lt _ _ p.traits (by show p.traits < h.next + 1; omega)]
      exact alloc_mem_lt h _ p.traits ht
    · rw [g2 p.expertise he]
      rw [show (((h.alloc (h.mem p.expertise)).1.alloc
          ((h.alloc (h.mem p.expertise)).1.mem p.traits)).1).mem p.expertise =
        (h.alloc (h.mem p.expertise)).1.mem p.expertise from
        alloc_mem_lt _ _ p.expertise (by show p.expertise < h.next + 1; omega)]
      exact alloc_mem_lt h _ p.expertise he
    · rw [g3, htr]
      show h.next + 1 ≠ p.traits
      omega
    · intro hcontra
      rw [hcontra] at g4
      omega

/-- A two-cell heap for the concrete frame witness. -/
def witHeap : Heap := { next := 2, mem := fun _ => ["x"] }

/-- A heap-backed persona whose arrays are cells 0 and 1. -/
def witPersonaRef : PersonaRef := ⟨"p1", "P1", "", "", 0, "", 1⟩

/-- Witness: applyPersonaModificationsH_frame at a concrete heap, persona
and instruction. -/
theorem applyPersonaModificationsH_frame_witness :
    witPersonaRef.traits < witHeap.next ∧
    witPersonaRef.expertise < witHeap.next ∧
    (applyPersonaModificationsH witHeap witPersonaRef "formal").1.mem
      witPersonaRef.traits = witHeap.mem witPersonaRef.traits ∧
    witHeap.next ≤
      (applyPersonaModificationsH witHeap witPersonaRef "formal").1.next := by
  have h := applyPersonaModificationsH_frame witHeap witPersonaRef "formal"
    (by decide) (by decide)
  exact ⟨by decide, by decide, h.1, h.2.2.1⟩

/-! ## The blend lifecycle (PersonaServer.handleBlendPersonas and
handlePromoteExpiredPersona) -/

/-- The generated blend id `blend_${Date.now()}`. -/
def blendIdOf (now : Nat) : String := "blend_" ++ natToDecStr now

/-- The generated permanent id `saved_${Date.now()}`. -/
def savedIdOf (now : Nat) : String := "saved_" ++ natToDecStr now

/-- Add every element of `xs` to the insertion-ordered set `acc`
(JS `Set.add` in iteration order, deduplicating). -/
def setAddAll (acc : List String) (xs : List String) : List String :=
  xs.foldl (fun a x => if a.contains x then a else a ++ [x]) acc

/-- The purge test of the sweep: `blend.expiredAt && blend.expiredAt <
dayAgo` with `dayAgo = now − 24h`. -/
def purgeTest (b : PersonaBlend) (now : Nat) : Bool :=
  match b.expiredAt with
  | some t => decide (t + DAY_MS < now)
  | none => false

/-- `{ ...blend, expiredAt: now }`: the swept blend stamped with its
expiry time. -/
def stampB (now : Nat) (b : PersonaBlend) : PersonaBlend :=
  { b with expiredAt := some now }

/-- The lifecycle sweep at the start of every handleBlendPersonas call:
move every active blend strictly past its expiresAt into the expired
index stamped with `expiredAt = now`, deleting its synthetic persona from
the persona map and removing it from the active index; then delete from
the expired index every blend whose expiredAt lies more than 24 hours in
the past. -/
def sweepExpire (s : ServerState) (now : Nat) : ServerState :=
  let expiredNow :=
    s.temporaryPersonas.filter (fun e => decide (e.2.expiresAt < now))
  let temp1 :=
    s.temporaryPersonas.filter (fun e => !(decide (e.2.expiresAt < now)))
  let expired1 := expiredNow.foldl
    (fun m e => mapSet m e.1 (stampB now e.2))
    s.expiredPersonas
  let personas1 := expiredNow.foldl (fun m e => mapDelete m e.1) s.personas
  let expired2 := expired1.filter (fun e => !(purgeTest e.2 now))
  { s with
    personas := personas1,
    temporaryPersonas := temp1,
    expiredPersonas := expired2 }

/-- Resolve every source id in order, failing with NotFound at the first
missing one (the validation loop of handleBlendPersonas). -/
def resolveAll (personas : List (String × Persona)) :
    List String → Except McpError (List Persona)
  | [] => .ok []
  | pid :: rest =>
    match mapGet? personas pid with
    | none => .error (McpErrorHandler.notFound "Persona" pid)
    | some p =>
      match resolveAll personas rest with
      | .ok ps => .ok (p :: ps)
      | .error e => .error e

/-- The merge-mode blended system prompt. -/
def mergePrompt (ps : List Persona) (task : String) : String :=
  let base := "You are a unique blend of multiple expert personas, combining their best qualities for the task: \"" ++
    task ++ "\"\n\n" ++ "Your combined expertise includes:\n"
  let withExp := ps.foldl (fun acc p =>
    acc ++ "- " ++ p.name ++ ": " ++
      String.intercalate ", " p.expertise ++ "\n") base
  let withApproach := ps.foldl (fun acc p =>
    acc ++ "\nFrom " ++ p.name ++ ":\n" ++ p.systemPrompt ++ "\n")
    (withExp ++ "\nYour unified approach:\n")
  withApproach ++
    "\nSynthesize these perspectives to provide comprehensive assistance for: " ++
    task

/-- The sequential-mode blended system prompt. -/
def sequentialPrompt (ps : List Persona) (task : String) : String :=
  let base := "You have access to multiple expert personas that you can channel sequentially for the task: \"" ++
    task ++ "\"\n\n" ++ "Available personas (use in order of relevance):\n\n"
  let withPersonas := ps.enum.foldl (fun acc ip =>
    acc ++ "[Persona " ++ natToDecStr (ip.1 + 1) ++ ": " ++ ip.2.name ++
      "]\n" ++ "Expertise: " ++ String.intercalate ", " ip.2.expertise ++
      "\n" ++ "Approach: " ++ ip.2.systemPrompt ++ "\n\n") base
  withPersonas ++
    "Channel each persona as needed, clearly indicating transitions when switching perspectives."

/-- PersonaServer.handleBlendPersonas (state effects): validate the
sources, sweep the lifecycle, build the mode-dependent blend (an
unrecognized mode leaves name, description, prompt and the trait and
expertise sets empty, and is stored unvalidated), insert the blend and
its synthetic persona, and activate it. -/
def blendPersonas (s : ServerState) (persona_ids : List String)
    (task : String) (blend_mode : String) (now : Nat) :
    Except McpError (ServerState × PersonaBlend × Persona) :=
  if persona_ids.length < 2 then
    .error (McpErrorHandler.invalidRequest
      "At least 2 personas are required for blending")
  else
    match resolveAll s.personas persona_ids with
    | .error e => .error e
    | .ok ps =>
      let s1 := sweepExpire s now
      let blendId := blendIdOf now
      let expiresAt := now + HOUR_MS
      let blendedName :=
        if blend_mode = "merge" then
          "Blended: " ++ String.intercalate " + " (ps.map Persona.name)
        else if blend_mode = "sequential" then
          "Sequential: " ++ String.intercalate " → " (ps.map Persona.name)
        else ""
      let blendedDescription :=
        if blend_mode = "merge" then
          "A fusion of " ++ natToDecStr ps.length ++ " personas for: " ++ task
        else if blend_mode = "sequential" then
          "Sequential application of " ++ natToDecStr ps.length ++
            " personas for: " ++ task
        else ""
      let blendedPrompt :=
        if blend_mode = "merge" then mergePrompt ps task
        else if blend_mode = "sequential" then sequentialPrompt ps task
        else ""
      let allExpertise :=
        if blend_mode = "merge" ∨ blend_mode = "sequential" then
          ps.foldl (fun a p => setAddAll a p.expertise) []
        else []
      let allTraits :=
        if blend_mode = "merge" ∨ blend_mode = "sequential" then
          ps.foldl (fun a p => setAddAll a p.traits) []
        else []
      let blendedPersona : Persona :=
        { id := blendId, name := blendedName,
          description := blendedDescription,
          systemPrompt := blendedPrompt, traits := allTraits,
          communicationStyle := "Adaptive blend of: " ++
            String.intercalate ", " (ps.map Persona.communicationStyle),
          expertise := allExpertise }
      let blend : PersonaBlend :=
        { id := blendId, sourcePersonaIds := persona_ids, task := task,
          blendMode := blend_mode, systemPrompt := blendedPrompt,
          expiresAt := expiresAt, expiredAt := none }
      .ok ({ s1 with
        personas := mapSet s1.personas blendId blendedPersona,
        activePersonaId := some blendId,
        temporaryPersonas := mapSet s1.temporaryPersonas blendId blend },
        blend, blendedPersona)

/-- PersonaServer.handlePromoteExpiredPersona (state effects): fail with
InvalidRequest when the id is not in the expired index; else build a
permanent persona with a fresh `saved_` id whose systemPrompt is the
blend's synthesized prompt, fixed traits and communication style, and
whose expertise is the deduplicated union over the source ids that still
resolve; insert it and drop the blend from the expired index. -/
def promoteExpiredPersona (s : ServerState) (persona_id : String)
    (now : Nat) : Except McpError (ServerState × Persona) :=
  match mapGet? s.expiredPersonas persona_id with
  | none => .error (McpErrorHandler.invalidRequest
      ("Expired persona \"" ++ persona_id ++
        "\" not found. Use list_expired_personas to see available options."))
  | some expiredBlend =>
    let permanentId := savedIdOf now
    let allExpertise := expiredBlend.sourcePersonaIds.foldl
      (fun acc sourceId =>
        match mapGet? s.personas sourceId with
        | some sp => setAddAll acc sp.expertise
        | none => acc) []
    let permanentPersona : Persona :=
      { id := permanentId,
        name := "Saved: " ++
          String.intercalate " + " expiredBlend.sourcePersonaIds,
        description := "Promoted blend: " ++ expiredBlend.task,
        systemPrompt := expiredBlend.systemPrompt,
        traits := ["collaborative", "multi-faceted"],
        communicationStyle := "adaptive",
        expertise := allExpertise }
    .ok ({ s with
      personas := mapSet s.personas permanentId permanentPersona,
      expiredPersonas := mapDelete s.expiredPersonas persona_id },
      permanentPersona)

theorem mem_setAddAll : ∀ (xs acc : List String) (x : String),
    x ∈ setAddAll acc xs ↔ x ∈ acc ∨ x ∈ xs
  | [], acc, x => by simp [setAddAll]
  | y :: ys, acc, x => by
    show x ∈ setAddAll (if acc.contains y then acc else acc ++ [y]) ys ↔ _
    rw [mem_setAddAll ys (if acc.contains y then acc else acc ++ [y]) x]
    by_cases hc : acc.contains y = true
    · rw [if_pos hc]
      have hy : y ∈ acc := by simpa using hc
      simp only [List.mem_cons]
      constructor
      · rintro (h | h)
        · exact Or.inl h
        · exact Or.inr (Or.inr h)
      · rintro (h | rfl | h)
        · exact Or.inl h
        · exact Or.inl hy
        · exact Or.inr h
    · rw [if_neg hc]
      simp only [List.mem_append, List.mem_cons, List.mem_singleton]
      tauto

theorem nodup_setAddAll : ∀ (xs acc : List String), acc.Nodup →
    (setAddAll acc xs).Nodup
  | [], _, h => h
  | y :: ys, acc, h => by
    show (setAddAll (if acc.contains y then acc else acc ++ [y]) ys).Nodup
    apply nodup_setAddAll
    by_cases hc : acc.contains y = true
    · rw [if_pos hc]
      exact h
    · rw [if_neg hc]
      have hy : y ∉ acc := by simpa using hc
      simp [List.nodup_append, h, hy]

theorem mem_promoteFold (personas : List (String × Persona)) :
    ∀ (sids : List String) (acc : List String) (x : String),
    (x ∈ sids.foldl (fun acc sourceId =>
        match mapGet? personas sourceId with
        | some sp => setAddAll acc sp.expertise
        | none => acc) acc ↔
      x ∈ acc ∨ ∃ sid ∈ sids, ∃ sp, mapGet? personas sid = some sp ∧
        x ∈ sp.expertise)
  | [], acc, x => by simp
  | sid :: rest, acc, x => by
    rw [List.foldl_cons, mem_promoteFold personas rest _ x]
    cases hg : mapGet? personas sid with
    | none =>
      simp only [hg]
      constructor
      · rintro (h | h)
        · exact Or.inl h
        · obtain ⟨sid', hs', hsp⟩ := h
          exact Or.inr ⟨sid', List.mem_cons_of_mem _ hs', hsp⟩
      · rintro (h | ⟨sid', hs', sp, hsp, hx⟩)
        · exact Or.inl h
        · rcases List.mem_cons.mp hs' with rfl | hs''
          · rw [hg] at hsp
            exact absurd hsp (by simp)
          · exact Or.inr ⟨sid', hs'', sp, hsp, hx⟩
    | some sp =>
      simp only [hg, mem_setAddAll]
      constructor
      · rintro ((h | h) | h)
        · exact Or.inl h
        · exact Or.inr ⟨sid, List.mem_cons_self _ _, sp, hg, h⟩
        · obtain ⟨sid', hs', hsp⟩ := h
          exact Or.inr ⟨sid', List.mem_cons_of_mem _ hs', hsp⟩
      · rintro (h | ⟨sid', hs', sp', hsp, hx⟩)
        · exact Or.inl (Or.inl h)
        · rcases List.mem_cons.mp hs' with rfl | hs''
          · rw [hg] at hsp
            obtain rfl : sp = sp' := by injection hsp
            exact Or.inl (Or.inr hx)
          · exact Or.inr ⟨sid', hs'', sp', hsp, hx⟩

theorem nodup_promoteFold (personas : List (String × Persona)) :
    ∀ (sids : List String) (acc : List String), acc.Nodup →
    (sids.foldl (fun acc sourceId =>
        match mapGet? personas sourceId with
        | some sp => setAddAll acc sp.expertise
        | none => acc) acc).Nodup
  | [], _, h => h
  | sid :: rest, acc, h => by
    rw [List.foldl_cons]
    apply nodup_promoteFold personas rest
    cases hg : mapGet? personas sid with
    | none => simpa [hg] using h
    | some sp =>
      simp only [hg]
      exact nodup_setAddAll sp.expertise acc h

theorem mapHas_mapDelete_self {α : Type} (m : List (String × α)) (k : String) :
    mapHas (mapDelete m k) k = false := by
  rw [← Bool.not_eq_true, mapHas_iff, mem_keysOf_mapDelete]
  simp

/-- C5: promote_expired_persona raises InvalidRequest iff the id is not a
key of the expired-blend index; on success the new persona carries a
freshly generated `saved_` id, the blend's synthesized prompt verbatim,
the fixed traits ['collaborative', 'multi-faceted'] and communication
style 'adaptive', and its expertise is the deduplicated union of the
expertise of those source ids that still resolve in the persona map
(non-resolving sources contribute nothing); the blend is removed from the
expired index and the new persona inserted into the persona map. -/
theorem promoteExpiredPersona_spec :
    (∀ (s : ServerState) (pid : String) (now : Nat),
       mapHas s.expiredPersonas pid = false →
       promoteExpiredPersona s pid now =
         .error (McpErrorHandler.invalidRequest
           ("Expired persona \"" ++ pid ++
             "\" not found. Use list_expired_personas to see available options."))) ∧
    (∀ (s : ServerState) (pid : String) (now : Nat),
       mapHas s.expiredPersonas pid = true →
       ∃ st' p, promoteExpiredPersona s pid now = .ok (st', p)) ∧
    (∀ (s : ServerState) (pid : String) (now : Nat) (st' : ServerState)
       (p : Persona) (blend : PersonaBlend),
       promoteExpiredPersona s pid now = .ok (st', p) →
       mapGet? s.expiredPersonas pid = some blend →
       p.id = savedIdOf now ∧
       p.systemPrompt = blend.systemPrompt ∧
       p.traits = ["collaborative", "multi-faceted"] ∧
       p.communicationStyle = "adaptive" ∧
       (∀ x, x ∈ p.expertise ↔ ∃ sid ∈ blend.sourcePersonaIds, ∃ sp,
          mapGet? s.personas sid = some sp ∧ x ∈ sp.expertise) ∧
       p.expertise.Nodup ∧
       st'.expiredPersonas = mapDelete s.expiredPersonas pid ∧
       mapHas st'.expiredPersonas pid = false ∧
       st'.personas = mapSet s.personas (savedIdOf now) p ∧
       st'.temporaryPersonas = s.temporaryPersonas) := by
  refine ⟨?_, ?_, ?_⟩
  · intro s pid now h
    unfold promoteExpiredPersona
    rw [mapGet?_eq_none _ _ h]
  · intro s pid now h
    obtain ⟨blend, hblend⟩ := mapGet?_isSome _ _ h
    cases hres : promoteExpiredPersona s pid now with
    | ok r => exact ⟨r.1, r.2, rfl⟩
    | error e =>
      unfold promoteExpiredPersona at hres
      rw [hblend] at hres
      exact absurd hres (by simp)
  · intro s pid now st' p blend h hblend
    unfold promoteExpiredPersona at h
    rw [hblend] at h
    simp only [Except.ok.injEq, Prod.mk.injEq] at h
    obtain ⟨hst, hp⟩ := h
    refine ⟨by rw [← hp], by rw [← hp], by rw [← hp], by rw [← hp],
      ?_, ?_, by rw [← hst], ?_, ?_, by rw [← hst]⟩
    · intro x
      rw [← hp]
      show x ∈ blend.sourcePersonaIds.foldl _ [] ↔ _
      rw [mem_promoteFold s.personas blend.sourcePersonaIds [] x]
      simp
    · rw [← hp]
      exact nodup_promoteFold s.personas blend.sourcePersonaIds []
        List.nodup_nil
    · rw [← hst]
      show mapHas (mapDelete s.expiredPersonas pid) pid = false
      exact mapHas_mapDelete_self s.expiredPersonas pid
    · rw [← hst, ← hp]

/-- The expired blend of the Scenario D store. -/
def scenarioBlendD : PersonaBlend :=
  { id := "blend_5", sourcePersonaIds := ["p1", "p2"], task := "T",
    blendMode := "merge", systemPrompt := "SP",
    expiresAt := 5 + HOUR_MS, expiredAt := some 6 }

/-- The Scenario D store: two personas with expertise ["A","B"] and
["B","C"], and one expired blend of both. -/
def scenarioStoreD : ServerState :=
  { personas :=
      [("p1", { samplePersona "p1" "P1" with expertise := ["A", "B"] }),
       ("p2", { samplePersona "p2" "P2" with expertise := ["B", "C"] })],
    activePersonaId := some "p1", defaultPersonaId := "p1",
    temporaryPersonas := [],
    expiredPersonas := [("blend_5", scenarioBlendD)] }

/-- Witness: promoteExpiredPersona_spec applied to the Scenario D store:
the promoted persona's expertise is exactly the set {A, B, C}. -/
theorem promoteExpiredPersona_spec_witness :
    ∃ st' p, promoteExpiredPersona scenarioStoreD "blend_5" 99 = .ok (st', p) ∧
      p.systemPrompt = "SP" ∧
      p.traits = ["collaborative", "multi-faceted"] ∧
      p.communicationStyle = "adaptive" ∧
      (∀ x, x ∈ p.expertise ↔ x ∈ (["A", "B", "C"] : List String)) ∧
      mapHas st'.expiredPersonas "blend_5" = false := by
  obtain ⟨st', p, hok⟩ :=
    promoteExpiredPersona_spec.2.1 scenarioStoreD "blend_5" 99 (by decide)
  obtain ⟨hid, hsp, htr, hcs, hexp, hnd, hdel, hhas, hpers, htemp⟩ :=
    promoteExpiredPersona_spec.2.2 scenarioStoreD "blend_5" 99 st' p
      scenarioBlendD hok (by decide)
  refine ⟨st', p, hok, hsp, htr, hcs, ?_, hhas⟩
  have h1 : mapGet? scenarioStoreD.personas "p1" =
      some { samplePersona "p1" "P1" with expertise := ["A", "B"] } := by
    decide
  have h2 : mapGet? scenarioStoreD.personas "p2" =
      some { samplePersona "p2" "P2" with expertise := ["B", "C"] } := by
    decide
  intro x
  rw [hexp x]
  constructor
  · rintro ⟨sid, hsid, sp, hsp', hx⟩
    rcases (by simpa [scenarioBlendD] using hsid : sid = "p1" ∨ sid = "p2")
      with rfl | rfl
    · rw [h1] at hsp'
      obtain rfl : _ = sp := by injection hsp'
      rcases (by simpa [samplePersona] using hx : x = "A" ∨ x = "B")
        with rfl | rfl <;> simp
    · rw [h2] at hsp'
      obtain rfl : _ = sp := by injection hsp'
      rcases (by simpa [samplePersona] using hx : x = "B" ∨ x = "C")
        with rfl | rfl <;> simp
  · intro hx
    rcases (by simpa using hx : x = "A" ∨ x = "B" ∨ x = "C") with rfl | rfl | rfl
    · exact ⟨"p1", by simp [scenarioBlendD], _, h1, by simp [samplePersona]⟩
    · exact ⟨"p1", by simp [scenarioBlendD], _, h1, by simp [samplePersona]⟩
    · exact ⟨"p2", by simp [scenarioBlendD], _, h2, by simp [samplePersona]⟩

theorem resolveAll_ok (personas : List (String × Persona)) :
    ∀ (ids : List String), (∀ pid ∈ ids, mapHas personas pid = true) →
    ∃ ps, resolveAll personas ids = .ok ps
  | [], _ => ⟨[], rfl⟩
  | pid :: rest, h => by
    obtain ⟨p, hp⟩ :=
      mapGet?_isSome personas pid (h pid (List.mem_cons_self _ _))
    obtain ⟨ps, hps⟩ := resolveAll_ok personas rest
      (fun q hq => h q (List.mem_cons_of_mem _ hq))
    exact ⟨p :: ps, by unfold resolveAll; rw [hp, hps]⟩

/-- C9: a blend_personas call whose blend_mode is neither "merge" nor
"sequential" raises no error: with otherwise valid arguments it still
sweeps the lifecycle, creates and activates a blend record carrying the
unvalidated mode string as blendMode, and inserts a synthetic persona
whose name, description and systemPrompt are all the empty string. -/
theorem blendPersonas_unvalidated_mode (s : ServerState)
    (ids : List String) (task mode : String) (now : Nat)
    (hm1 : mode ≠ "merge") (hm2 : mode ≠ "sequential")
    (hlen : ¬ ids.length < 2)
    (hres : ∀ pid ∈ ids, mapHas s.personas pid = true) :
    ∃ st' blend persona,
      blendPersonas s ids task mode now = .ok (st', blend, persona) ∧
      persona.name = "" ∧ persona.description = "" ∧
      persona.systemPrompt = "" ∧ persona.traits = [] ∧
      persona.expertise = [] ∧
      blend.blendMode = mode ∧ blend.id = blendIdOf now ∧
      blend.expiresAt = now + HOUR_MS ∧
      st'.activePersonaId = some (blendIdOf now) ∧
      st'.temporaryPersonas =
        mapSet (sweepExpire s now).temporaryPersonas (blendIdOf now) blend ∧
      st'.personas =
        mapSet (sweepExpire s now).personas (blendIdOf now) persona ∧
      st'.expiredPersonas = (sweepExpire s now).expiredPersonas := by
  obtain ⟨ps, hps⟩ := resolveAll_ok s.personas ids hres
  simp only [blendPersonas]
  rw [if_neg hlen, hps]
  refine ⟨_, _, _, rfl, ?_, ?_, ?_, ?_, ?_, ?_, ?_, ?_, ?_, ?_, ?_, ?_⟩ <;>
    simp [hm1, hm2]

/-- Witness: blendPersonas_unvalidated_mode applied to the two-persona
store with the unrecognized mode "banana". -/
theorem blendPersonas_unvalidated_mode_witness :
    ∃ st' blend persona,
      blendPersonas scenarioStoreA ["p1", "p2"] "T" "banana" 7 =
        .ok (st', blend, persona) ∧
      persona.name = "" ∧ persona.systemPrompt = "" ∧
      blend.blendMode = "banana" ∧
      st'.activePersonaId = some (blendIdOf 7) := by
  obtain ⟨st', blend, persona, hok, c1, c2, c3, c4, c5, c6, c7, c8, c9,
      c10, c11, c12⟩ :=
    blendPersonas_unvalidated_mode scenarioStoreA ["p1", "p2"] "T" "banana" 7
      (by decide) (by decide) (by decide) (by decide)
  exact ⟨st', blend, persona, hok, c1, c3, c6, c9⟩

/-! ## The lifecycle invariant of the two blend indexes
(handleBlendPersonas sweep, claim C4) -/

theorem natDecChars_ne_nil (n : Nat) : natDecChars n ≠ [] := by
  rw [natDecChars_eq]
  by_cases h : n < 10
  · rw [if_pos h]; simp
  · rw [if_neg h]; simp

/-- The decimal rendering is injective, so ids minted from distinct
`Date.now()` values are distinct. -/
theorem natDecChars_injective : ∀ m n : Nat,
    natDecChars m = natDecChars n → m = n := by
  have hdig : ∀ m, m < 10 → (Char.ofNat (48 + m)).toNat = 48 + m := by decide
  intro m
  induction m using Nat.strong_induction_on with
  | _ m ih =>
    intro n heq
    rw [natDecChars_eq m, natDecChars_eq n] at heq
    by_cases hm : m < 10 <;> by_cases hn : n < 10
    · rw [if_pos hm, if_pos hn] at heq
      have hc : Char.ofNat (48 + m) = Char.ofNat (48 + n) := by
        simpa using heq
      have htn := congrArg Char.toNat hc
      rw [hdig m hm, hdig n hn] at htn
      omega
    · rw [if_pos hm, if_neg hn] at heq
      have hlen := congrArg List.length heq
      rw [List.length_append] at hlen
      simp only [List.length_singleton] at hlen
      exact absurd (List.eq_nil_of_length_eq_zero (by omega))
        (natDecChars_ne_nil (n / 10))
    · rw [if_neg hm, if_pos hn] at heq
      have hlen := congrArg List.length heq
      rw [List.length_append] at hlen
      simp only [List.length_singleton] at hlen
      exact absurd (List.eq_nil_of_length_eq_zero (by omega))
        (natDecChars_ne_nil (m / 10))
    · rw [if_neg hm, if_neg hn] at heq
      have hr := congrArg List.reverse heq
      simp at hr
      obtain ⟨hd, htl⟩ := hr
      have hmod : m % 10 = n % 10 := by
        have htn := congrArg Char.toNat hd
        rw [hdig _ (Nat.mod_lt _ (by omega)),
          hdig _ (Nat.mod_lt _ (by omega))] at htn
        omega
      have hdiv : m / 10 = n / 10 :=
        ih (m / 10) (Nat.div_lt_self (by omega) (by omega)) (n / 10) htl
      omega

theorem natToDecStr_injective (m n : Nat) (h : natToDecStr m = natToDecStr n) :
    m = n :=
  natDecChars_injective m n (congrArg String.data h)

theorem stringDataInj (s t : String) (h : s.data = t.data) : s = t := by
  cases s; cases t; exact congrArg String.mk h

/-- Distinct creation timestamps yield distinct blend ids. -/
theorem blendIdOf_injective (m n : Nat) (h : blendIdOf m = blendIdOf n) :
    m = n := by
  apply natToDecStr_injective
  have hd := congrArg String.data h
  simp only [blendIdOf, String.data_append] at hd
  exact stringDataInj _ _ (List.append_cancel_left hd)

theorem keysOf_cons {α : Type} (e : String × α) (m : List (String × α)) :
    keysOf (e :: m) = e.1 :: keysOf m := rfl

theorem keysOf_append {α : Type} (m1 m2 : List (String × α)) :
    keysOf (m1 ++ m2) = keysOf m1 ++ keysOf m2 := List.map_append _ _ _

theorem keysOf_map_stamp (now : Nat) (xs : List (String × PersonaBlend)) :
    keysOf (xs.map (fun e => (e.1, stampB now e.2))) = keysOf xs := by
  simp [keysOf, List.map_map, Function.comp]

/-- The sweep's stamping loop over fresh pairwise-distinct keys appends
the stamped entries in order. -/
theorem fold_stamp_append (now : Nat) :
    ∀ (xs m : List (String × PersonaBlend)),
      (∀ k ∈ keysOf xs, k ∉ keysOf m) → (keysOf xs).Nodup →
      xs.foldl (fun m e => mapSet m e.1 (stampB now e.2)) m
        = m ++ xs.map (fun e => (e.1, stampB now e.2))
  | [], m, _, _ => by simp
  | x :: xs, m, hfresh, hnd => by
    have hxk : (x.1 : String) ∈ keysOf (x :: xs) := by
      rw [keysOf_cons]; exact List.mem_cons_self _ _
    have hx : mapHas m x.1 = false := by
      cases hb : mapHas m x.1
      · rfl
      · exact absurd ((mapHas_iff m x.1).mp hb) (hfresh x.1 hxk)
    rw [keysOf_cons] at hfresh hnd
    simp only [List.foldl_cons]
    rw [mapSet_eq_append m x.1 _ hx,
      fold_stamp_append now xs (m ++ [(x.1, stampB now x.2)])
        (by
          intro k hk hmem
          rw [keysOf_append] at hmem
          rcases List.mem_append.mp hmem with h1 | h1
          · exact hfresh k (List.mem_cons_of_mem _ hk) h1
          · have hk1 : k = x.1 := by simpa [keysOf] using h1
            subst hk1
            exact (List.nodup_cons.mp hnd).1 hk)
        (List.nodup_cons.mp hnd).2]
    simp

/-- The sweep's synthetic-persona deletion loop removes exactly the listed
keys. -/
theorem fold_delete_mem {α : Type} :
    ∀ (xs : List (String × PersonaBlend)) (m : List (String × α))
      (e : String × α),
      e ∈ xs.foldl (fun m x => mapDelete m x.1) m ↔
        e ∈ m ∧ e.1 ∉ keysOf xs
  | [], m, e => by simp [keysOf]
  | x :: xs, m, e => by
    simp only [List.foldl_cons]
    rw [fold_delete_mem xs (mapDelete m x.1) e, keysOf_cons]
    simp only [mapDelete, List.mem_filter, List.mem_cons, Bool.not_eq_true',
      beq_eq_false_iff_ne, ne_eq]
    tauto

/-- Sweep, active index: exactly the not-yet-expired blends survive. -/
theorem sweepExpire_temp_mem (s : ServerState) (now : Nat)
    (e : String × PersonaBlend) :
    e ∈ (sweepExpire s now).temporaryPersonas ↔
      e ∈ s.temporaryPersonas ∧ ¬ e.2.expiresAt < now := by
  simp [sweepExpire, List.mem_filter]

/-- Sweep, persona map: exactly the synthetic personas of the newly swept
blends are removed. -/
theorem sweepExpire_personas_mem (s : ServerState) (now : Nat)
    (e : String × Persona) :
    e ∈ (sweepExpire s now).personas ↔
      e ∈ s.personas ∧
        ∀ b : PersonaBlend, (e.1, b) ∈ s.temporaryPersonas →
          ¬ b.expiresAt < now := by
  simp only [sweepExpire]
  rw [fold_delete_mem]
  constructor
  · rintro ⟨h1, h2⟩
    refine ⟨h1, fun b hb hlt => h2 ?_⟩
    exact List.mem_map_of_mem Prod.fst
      (List.mem_filter.mpr ⟨hb, by simpa using hlt⟩)
  · rintro ⟨h1, h2⟩
    refine ⟨h1, fun hc => ?_⟩
    obtain ⟨x, hx, hfst⟩ := List.mem_map.mp hc
    have hxf := List.mem_filter.mp hx
    refine h2 x.2 ?_ (by simpa using hxf.2)
    rw [← hfst]
    exact hxf.1

theorem sweepExpire_temp_keys_nodup (s : ServerState) (now : Nat)
    (h : (keysOf s.temporaryPersonas).Nodup) :
    (keysOf (sweepExpire s now).temporaryPersonas).Nodup := by
  simp only [sweepExpire]
  exact List.Nodup.sublist ((List.filter_sublist _).map Prod.fst) h

/-- Sweep, expired index: the old entries that survive the 24-hour purge,
plus the newly swept blends stamped with `expiredAt = now` (which, being
freshly stamped, can never be purged in the same sweep). -/
theorem sweepExpire_expired_mem (s : ServerState) (now : Nat)
    (hT : (keysOf s.temporaryPersonas).Nodup)
    (hD : ∀ k ∈ keysOf s.temporaryPersonas, k ∉ keysOf s.expiredPersonas)
    (id : String) (b' : PersonaBlend) :
    (id, b') ∈ (sweepExpire s now).expiredPersonas ↔
      ((∃ b, (id, b) ∈ s.temporaryPersonas ∧ b.expiresAt < now ∧
          b' = stampB now b) ∨
        ((id, b') ∈ s.expiredPersonas ∧ purgeTest b' now = false)) := by
  have hnd : (keysOf (s.temporaryPersonas.filter
      (fun e => decide (e.2.expiresAt < now)))).Nodup :=
    List.Nodup.sublist ((List.filter_sublist _).map Prod.fst) hT
  have hfresh : ∀ k ∈ keysOf (s.temporaryPersonas.filter
      (fun e => decide (e.2.expiresAt < now))),
      k ∉ keysOf s.expiredPersonas := by
    intro k hk
    exact hD k (((List.filter_sublist _).map Prod.fst).subset hk)
  simp only [sweepExpire]
  rw [fold_stamp_append now _ _ hfresh hnd, List.mem_filter, List.mem_append]
  constructor
  · rintro ⟨hmem | hmem, hp⟩
    · exact Or.inr ⟨hmem, by simpa using hp⟩
    · obtain ⟨x, hx, hxe⟩ := List.mem_map.mp hmem
      obtain ⟨hx1, hx2⟩ := Prod.mk.injEq .. |>.mp hxe
      have hxf := List.mem_filter.mp hx
      refine Or.inl ⟨x.2, ?_, by simpa using hxf.2, hx2.symm⟩
      rw [← hx1]
      exact hxf.1
  · rintro (⟨b, hb, hlt, rfl⟩ | ⟨hmem, hp⟩)
    · refine ⟨Or.inr (List.mem_map.mpr
        ⟨(id, b), List.mem_filter.mpr ⟨hb, by simpa using hlt⟩, rfl⟩), ?_⟩
      simp [purgeTest, stampB, DAY_MS]
    · exact ⟨Or.inl hmem, by simp [hp]⟩

theorem sweepExpire_expired_keys_nodup (s : ServerState) (now : Nat)
    (hT : (keysOf s.temporaryPersonas).Nodup)
    (hX : (keysOf s.expiredPersonas).Nodup)
    (hD : ∀ k ∈ keysOf s.temporaryPersonas, k ∉ keysOf s.expiredPersonas) :
    (keysOf (sweepExpire s now).expiredPersonas).Nodup := by
  have hnd : (keysOf (s.temporaryPersonas.filter
      (fun e => decide (e.2.expiresAt < now)))).Nodup :=
    List.Nodup.sublist ((List.filter_sublist _).map Prod.fst) hT
  have hfresh : ∀ k ∈ keysOf (s.temporaryPersonas.filter
      (fun e => decide (e.2.expiresAt < now))),
      k ∉ keysOf s.expiredPersonas := by
    intro k hk
    exact hD k (((List.filter_sublist _).map Prod.fst).subset hk)
  simp only [sweepExpire]
  rw [fold_stamp_append now _ _ hfresh hnd]
  have happ : (keysOf (s.expiredPersonas ++
      (s.temporaryPersonas.filter (fun e => decide (e.2.expiresAt < now))).map
        (fun e => (e.1, stampB now e.2)))).Nodup := by
    rw [keysOf_append, keysOf_map_stamp, List.nodup_append]
    exact ⟨hX, hnd, fun k hk hk2 => hfresh k hk2 hk⟩
  exact List.Nodup.sublist ((List.filter_sublist _).map Prod.fst) happ

/-- A successful blend_personas call: the resulting state relative to the
swept store. -/
theorem blendPersonas_ok_shape (s : ServerState) (ids : List String)
    (task mode : String) (now : Nat) (st' : ServerState)
    (b : PersonaBlend) (p : Persona)
    (h : blendPersonas s ids task mode now = .ok (st', b, p)) :
    st'.temporaryPersonas =
      mapSet (sweepExpire s now).temporaryPersonas (blendIdOf now) b ∧
    st'.expiredPersonas = (sweepExpire s now).expiredPersonas ∧
    st'.personas = mapSet (sweepExpire s now).personas (blendIdOf now) p ∧
    st'.activePersonaId = some (blendIdOf now) ∧
    b.expiresAt = now + HOUR_MS ∧ b.expiredAt = none := by
  simp only [blendPersonas] at h
  by_cases hlen : ids.length < 2
  · rw [if_pos hlen] at h
    exact absurd h (by simp)
  · rw [if_neg hlen] at h
    cases hres : resolveAll s.personas ids with
    | error e =>
      rw [hres] at h
      exact absurd h (by simp)
    | ok ps =>
      rw [hres] at h
      injection h with h
      obtain ⟨h1, h2⟩ := Prod.mk.injEq .. |>.mp h
      obtain ⟨h2, h3⟩ := Prod.mk.injEq .. |>.mp h2
      subst h1 h2 h3
      exact ⟨rfl, rfl, rfl, rfl, rfl, rfl⟩

/-- A successful promote_expired_persona call: the active index is
untouched and the promoted blend leaves the expired index. -/
theorem promoteExpiredPersona_ok_shape (s : ServerState) (pid : String)
    (now : Nat) (st' : ServerState) (p : Persona)
    (h : promoteExpiredPersona s pid now = .ok (st', p)) :
    st'.temporaryPersonas = s.temporaryPersonas ∧
    st'.expiredPersonas = mapDelete s.expiredPersonas pid := by
  simp only [promoteExpiredPersona] at h
  cases hres : mapGet? s.expiredPersonas pid with
  | none =>
    rw [hres] at h
    exact absurd h (by simp)
  | some blend =>
    rw [hres] at h
    injection h with h
    obtain ⟨h1, h2⟩ := Prod.mk.injEq .. |>.mp h
    subst h1
    exact ⟨rfl, rfl⟩

/-- A clocked server state: `clock` is the greatest `Date.now()` value
observed so far. -/
structure Sys where
  st : ServerState
  clock : Nat

/-- One server operation, as it affects the two blend indexes.
`Date.now()` never decreases, so each step's `now` is at least the
current clock.  Operations other than blend_personas and
promote_expired_persona leave both indexes unchanged. -/
inductive Step : Sys → Sys → Prop where
  | blend (sys : Sys) (now : Nat) (ids : List String) (task mode : String)
      (st' : ServerState) (b : PersonaBlend) (p : Persona) :
      sys.clock ≤ now →
      blendPersonas sys.st ids task mode now = .ok (st', b, p) →
      Step sys ⟨st', now⟩
  | promote (sys : Sys) (now : Nat) (pid : String) (st' : ServerState)
      (p : Persona) :
      sys.clock ≤ now →
      promoteExpiredPersona sys.st pid now = .ok (st', p) →
      Step sys ⟨st', now⟩
  | other (sys : Sys) (now : Nat) (st' : ServerState) :
      sys.clock ≤ now →
      st'.temporaryPersonas = sys.st.temporaryPersonas →
      st'.expiredPersonas = sys.st.expiredPersonas →
      Step sys ⟨st', now⟩

/-- States reachable from a freshly loaded server: the two blend indexes
are in-memory only and start empty. -/
inductive Reachable : Sys → Prop where
  | init (ps : List (String × Persona)) (a : Option String) (d : String) :
      Reachable ⟨{ personas := ps,
                   activePersonaId := a,
                   defaultPersonaId := d,
                   temporaryPersonas := [],
                   expiredPersonas := [] }, 0⟩
  | step (s s' : Sys) : Reachable s → Step s s' → Reachable s'

/-- The lifecycle invariant: keys of both blend indexes are
duplicate-free blend ids minted at times consistent with the clock,
every active blend expires exactly one hour after minting, every blend
in the expired index has already expired, and no key is in both
indexes. -/
structure BlendInv (sys : Sys) : Prop where
  tnd : (keysOf sys.st.temporaryPersonas).Nodup
  xnd : (keysOf sys.st.expiredPersonas).Nodup
  tShape : ∀ e ∈ sys.st.temporaryPersonas, ∃ t, e.1 = blendIdOf t ∧
    e.2.expiresAt = t + HOUR_MS ∧ t ≤ sys.clock
  xShape : ∀ e ∈ sys.st.expiredPersonas, ∃ t, e.1 = blendIdOf t ∧
    e.2.expiresAt = t + HOUR_MS ∧ e.2.expiresAt < sys.clock
  disj : ∀ k ∈ keysOf sys.st.temporaryPersonas,
    k ∉ keysOf sys.st.expiredPersonas

/-- Every server operation preserves the lifecycle invariant. -/
theorem blendInv_step (s s' : Sys) (hinv : BlendInv s) (hstep : Step s s') :
    BlendInv s' := by
  cases hstep with
  | blend now ids task mode st' b p hclock heq =>
    obtain ⟨ht, hx, hp2, ha, hexp, hexpAt⟩ :=
      blendPersonas_ok_shape _ ids task mode now st' b p heq
    refine ⟨?_, ?_, ?_, ?_, ?_⟩
    · show (keysOf st'.temporaryPersonas).Nodup
      rw [ht]
      exact nodup_keysOf_mapSet _ _ _
        (sweepExpire_temp_keys_nodup _ now hinv.tnd)
    · show (keysOf st'.expiredPersonas).Nodup
      rw [hx]
      exact sweepExpire_expired_keys_nodup _ now hinv.tnd hinv.xnd hinv.disj
    · intro e he
      show ∃ t, e.1 = blendIdOf t ∧ e.2.expiresAt = t + HOUR_MS ∧ t ≤ now
      rw [ht] at he
      rcases mem_mapSet _ _ _ _ he with rfl | he'
      · exact ⟨now, rfl, hexp, Nat.le_refl now⟩
      · have hmem := (sweepExpire_temp_mem _ now e).mp he'
        obtain ⟨t, h1, h2, h3⟩ := hinv.tShape e hmem.1
        exact ⟨t, h1, h2, h3.trans hclock⟩
    · intro e he
      show ∃ t, e.1 = blendIdOf t ∧ e.2.expiresAt = t + HOUR_MS ∧
        e.2.expiresAt < now
      rw [hx] at he
      rcases (sweepExpire_expired_mem _ now hinv.tnd hinv.disj e.1 e.2).mp he
        with ⟨bb, hbb, hlt, hstamp⟩ | ⟨hold, _⟩
      · obtain ⟨t, h1, h2, _⟩ := hinv.tShape (e.1, bb) hbb
        refine ⟨t, h1, ?_, ?_⟩
        · rw [hstamp]
          exact h2
        · rw [hstamp]
          exact hlt
      · obtain ⟨t, h1, h2, h3⟩ := hinv.xShape e hold
        exact ⟨t, h1, h2, h3.trans_le hclock⟩
    · intro k hk hk2
      show False
      rw [ht] at hk
      rw [hx] at hk2
      have hksplit : k ∈ keysOf (sweepExpire s.st now).temporaryPersonas ∨
          k = blendIdOf now := by
        by_cases hhas :
            mapHas (sweepExpire s.st now).temporaryPersonas (blendIdOf now)
              = true
        · rw [keysOf_mapSet_of_has _ _ _ hhas] at hk
          exact Or.inl hk
        · rw [keysOf_mapSet_of_not_has _ _ _ (by simpa using hhas)] at hk
          rcases List.mem_append.mp hk with h | h
          · exact Or.inl h
          · exact Or.inr (by simpa using h)
      obtain ⟨e2, he2, he2k⟩ := List.mem_map.mp
        (show k ∈ List.map Prod.fst (sweepExpire s.st now).expiredPersonas
          from hk2)
      have hx2 := (sweepExpire_expired_mem _ now hinv.tnd hinv.disj
        e2.1 e2.2).mp he2
      rcases hksplit with hkT | rfl
      · obtain ⟨e1, he1, he1k⟩ := List.mem_map.mp
          (show k ∈ List.map Prod.fst (sweepExpire s.st now).temporaryPersonas
            from hkT)
        have hT1 := (sweepExpire_temp_mem _ now e1).mp he1
        rcases hx2 with ⟨bb, hbb, hlt, _⟩ | ⟨hold, _⟩
        · have heqb : e1.2 = bb :=
            eq_of_mem_of_nodup_keys _ hinv.tnd k e1.2 bb
              (by rw [← he1k]; exact hT1.1) (by rw [← he2k]; exact hbb)
          exact hT1.2 (by rw [heqb]; exact hlt)
        · have hkt : k ∈ keysOf s.st.temporaryPersonas := by
            rw [← he1k]
            exact List.mem_map_of_mem Prod.fst hT1.1
          have hke : k ∈ keysOf s.st.expiredPersonas := by
            rw [← he2k]
            exact List.mem_map_of_mem Prod.fst hold
          exact hinv.disj k hkt hke
      · have hhms : HOUR_MS = 3600000 := rfl
        rcases hx2 with ⟨bb, hbb, hlt, _⟩ | ⟨hold, _⟩
        · obtain ⟨t, h1, h2, _⟩ := hinv.tShape (e2.1, bb) hbb
          have ht' : t = now :=
            blendIdOf_injective t now (by rw [← h1]; exact he2k)
          rw [h2, ht'] at hlt
          omega
        · obtain ⟨t, h1, h2, h3⟩ := hinv.xShape e2 hold
          have ht' : t = now :=
            blendIdOf_injective t now (by rw [← h1]; exact he2k)
          rw [h2, ht'] at h3
          have hfin := h3.trans_le hclock
          omega
  | promote now pid st' p hclock heq =>
    obtain ⟨ht, hx⟩ := promoteExpiredPersona_ok_shape _ pid now st' p heq
    refine ⟨?_, ?_, ?_, ?_, ?_⟩
    · show (keysOf st'.temporaryPersonas).Nodup
      rw [ht]
      exact hinv.tnd
    · show (keysOf st'.expiredPersonas).Nodup
      rw [hx]
      exact List.Nodup.sublist ((List.filter_sublist _).map Prod.fst) hinv.xnd
    · intro e he
      show ∃ t, e.1 = blendIdOf t ∧ e.2.expiresAt = t + HOUR_MS ∧ t ≤ now
      rw [ht] at he
      obtain ⟨t, h1, h2, h3⟩ := hinv.tShape e he
      exact ⟨t, h1, h2, h3.trans hclock⟩
    · intro e he
      show ∃ t, e.1 = blendIdOf t ∧ e.2.expiresAt = t + HOUR_MS ∧
        e.2.expiresAt < now
      rw [hx] at he
      have hold : e ∈ s.st.expiredPersonas :=
        (List.mem_filter.mp (show e ∈ List.filter _ s.st.expiredPersonas
          from he)).1
      obtain ⟨t, h1, h2, h3⟩ := hinv.xShape e hold
      exact ⟨t, h1, h2, h3.trans_le hclock⟩
    · intro k hk hk2
      show False
      rw [ht] at hk
      rw [hx] at hk2
      exact hinv.disj k hk ((mem_keysOf_mapDelete _ _ _).mp hk2).1
  | other now st' hclock htemp hexpd =>
    refine ⟨?_, ?_, ?_, ?_, ?_⟩
    · show (keysOf st'.temporaryPersonas).Nodup
      rw [htemp]
      exact hinv.tnd
    · show (keysOf st'.expiredPersonas).Nodup
      rw [hexpd]
      exact hinv.xnd
    · intro e he
      show ∃ t, e.1 = blendIdOf t ∧ e.2.expiresAt = t + HOUR_MS ∧ t ≤ now
      rw [htemp] at he
      obtain ⟨t, h1, h2, h3⟩ := hinv.tShape e he
      exact ⟨t, h1, h2, h3.trans hclock⟩
    · intro e he
      show ∃ t, e.1 = blendIdOf t ∧ e.2.expiresAt = t + HOUR_MS ∧
        e.2.expiresAt < now
      rw [hexpd] at he
      obtain ⟨t, h1, h2, h3⟩ := hinv.xShape e he
      exact ⟨t, h1, h2, h3.trans_le hclock⟩
    · intro k hk hk2
      show False
      rw [htemp] at hk
      rw [hexpd] at hk2
      exact hinv.disj k hk hk2

/-- Every reachable state satisfies the lifecycle invariant. -/
theorem reachable_blendInv (sys : Sys) (h : Reachable sys) : BlendInv sys := by
  induction h with
  | init ps a d =>
    refine ⟨?_, ?_, ?_, ?_, ?_⟩ <;> simp [keysOf]
  | step s s' hr hstep ih => exact blendInv_step s s' ih hstep

/-- A blend minted at time 5 that sits, already past its one-hour TTL,
in the active index. -/
def scenarioBlendC : PersonaBlend :=
  { id := blendIdOf 5, sourcePersonaIds := ["p1", "p2"], task := "T",
    blendMode := "merge", systemPrompt := "SP", expiresAt := 5 + HOUR_MS,
    expiredAt := none }

/-- A store holding only that overdue blend. -/
def scenarioStoreC : ServerState :=
  { personas := [],
    activePersonaId := none,
    defaultPersonaId := DEFAULT_ID,
    temporaryPersonas := [(blendIdOf 5, scenarioBlendC)],
    expiredPersonas := [] }

/-- The freshly loaded server with empty blend indexes at clock 0. -/
def sysInit : Sys :=
  ⟨{ personas := [],
     activePersonaId := none,
     defaultPersonaId := DEFAULT_ID,
     temporaryPersonas := [],
     expiredPersonas := [] }, 0⟩

/-- C4: the lifecycle sweep at the start of every blend_personas call
(after source validation against the pre-sweep persona map) moves
exactly the active blends with `expiresAt < now` into the expired index
stamped with `expiredAt = now`, removes them from the active index and
deletes their synthetic personas from the persona map, and permanently
deletes every expired blend whose `expiredAt` lies more than 24 hours in
the past; every successful blend_personas call commits exactly this
swept state; and consequently, in every reachable server state, no blend
id is simultaneously a key of the active and of the expired index. -/
theorem blendPersonas_lifecycle_sweep (s : ServerState) (now : Nat)
    (hT : (keysOf s.temporaryPersonas).Nodup)
    (hD : ∀ k ∈ keysOf s.temporaryPersonas, k ∉ keysOf s.expiredPersonas)
    (sys : Sys) (hreach : Reachable sys) :
    (∀ e : String × PersonaBlend,
      e ∈ (sweepExpire s now).temporaryPersonas ↔
        e ∈ s.temporaryPersonas ∧ ¬ e.2.expiresAt < now) ∧
    (∀ (id : String) (b' : PersonaBlend),
      (id, b') ∈ (sweepExpire s now).expiredPersonas ↔
        ((∃ b, (id, b) ∈ s.temporaryPersonas ∧ b.expiresAt < now ∧
            b' = stampB now b) ∨
          ((id, b') ∈ s.expiredPersonas ∧ purgeTest b' now = false))) ∧
    (∀ e : String × Persona,
      e ∈ (sweepExpire s now).personas ↔
        e ∈ s.personas ∧ ∀ b : PersonaBlend,
          (e.1, b) ∈ s.temporaryPersonas → ¬ b.expiresAt < now) ∧
    (∀ (ids : List String) (task mode : String) (st' : ServerState)
      (b : PersonaBlend) (p : Persona),
      blendPersonas s ids task mode now = .ok (st', b, p) →
      st'.expiredPersonas = (sweepExpire s now).expiredPersonas ∧
      st'.temporaryPersonas =
        mapSet (sweepExpire s now).temporaryPersonas (blendIdOf now) b ∧
      st'.personas =
        mapSet (sweepExpire s now).personas (blendIdOf now) p) ∧
    (∀ k ∈ keysOf sys.st.temporaryPersonas,
      k ∉ keysOf sys.st.expiredPersonas) := by
  refine ⟨sweepExpire_temp_mem s now, sweepExpire_expired_mem s now hT hD,
    sweepExpire_personas_mem s now, ?_, (reachable_blendInv sys hreach).disj⟩
  intro ids task mode st' b p h
  obtain ⟨h1, h2, h3, _, _, _⟩ :=
    blendPersonas_ok_shape s ids task mode now st' b p h
  exact ⟨h2, h1, h3⟩

/-- Witness: the lifecycle theorem at the store holding the overdue
blend minted at time 5, swept at a time past its one-hour TTL, and at
the freshly loaded initial system. -/
theorem blendPersonas_lifecycle_sweep_witness :
    ((keysOf scenarioStoreC.temporaryPersonas).Nodup ∧
      (∀ k ∈ keysOf scenarioStoreC.temporaryPersonas,
        k ∉ keysOf scenarioStoreC.expiredPersonas)) ∧
    (blendIdOf 5, stampB (HOUR_MS + 6) scenarioBlendC) ∈
      (sweepExpire scenarioStoreC (HOUR_MS + 6)).expiredPersonas ∧
    (∀ k ∈ keysOf sysInit.st.temporaryPersonas,
      k ∉ keysOf sysInit.st.expiredPersonas) := by
  have hT : (keysOf scenarioStoreC.temporaryPersonas).Nodup := by decide
  have hD : ∀ k ∈ keysOf scenarioStoreC.temporaryPersonas,
      k ∉ keysOf scenarioStoreC.expiredPersonas := by decide
  have h := blendPersonas_lifecycle_sweep scenarioStoreC (HOUR_MS + 6) hT hD
    sysInit (Reachable.init [] none DEFAULT_ID)
  refine ⟨⟨hT, hD⟩, ?_, h.2.2.2.2⟩
  exact (h.2.1 (blendIdOf 5) (stampB (HOUR_MS + 6) scenarioBlendC)).mpr
    (Or.inl ⟨scenarioBlendC, List.mem_cons_self _ _, by decide, rfl⟩)
